import Mathlib

/-!
Verification of the Topograph compute backend (`src-tauri/src`).

Shallow embedding conventions:
* `f32` values are embedded as exact rationals (`ℚ`).  Rounding of `f32`
  arithmetic is not modelled; every arithmetic step of the source is kept,
  so each theorem states the exact-arithmetic behaviour of the code.
* Transcendental `f32` operations (`exp`, `sqrt`, `cos`, `sin`), whose
  values are irrational, are abstracted as explicit function parameters of
  the definitions that use them.
* Rust casts are modelled exactly: `as u32` / `as u16` on a float truncate
  toward zero and saturate; `f32::round` rounds half away from zero;
  `f32::clamp` is min/max.
* Grid buffers are `List ℚ`; `Vec` indexing that can panic is modelled
  either by `List.getD`/`List.set` (no-op out of bounds) where claims
  supply in-bounds hypotheses, or by an `Option` monad (hydraulic erosion)
  where a claim asserts the out-of-bounds branch unreachable.
-/

/-- Rust `f32::clamp(lo, hi)`: `self.max(lo).min(hi)`. -/
def qclamp (x lo hi : ℚ) : ℚ := min (max x lo) hi

/-- Rust `f32::round`: round half away from zero. -/
def rustRound (x : ℚ) : ℤ := if 0 ≤ x then Int.floor (x + 1/2) else -Int.floor (-x + 1/2)

/-- Rust `expr as u32` on an `f32` value: truncate toward zero, saturating at
`0` and `u32::MAX`.  (For `x < 0`, truncation toward zero followed by the
saturation at `0` agrees with `(Int.floor x).toNat`.) -/
def f32AsU32 (x : ℚ) : ℕ := min (Int.floor x).toNat (2 ^ 32 - 1)

/-- Rust `expr as u16` on an `f32` value: truncate toward zero, saturating at
`0` and `u16::MAX`. -/
def f32AsU16 (x : ℚ) : ℕ := min (Int.floor x).toNat 65535

/-- Rust `expr as i32` on an `f32` value (used after `f32::round`, where the
value is integral and small, so saturation is irrelevant). -/
def f32AsI32 (x : ℚ) : ℤ := Int.floor x

/-- The value of `f32::MAX`, `(2 - 2⁻²³)·2¹²⁷`, used by the source as the
initial accumulator of running minima. -/
def f32MAX : ℚ := (2 ^ 24 - 1) * 2 ^ 104

/-- The value of `f32::MIN = -f32::MAX`, initial accumulator of running
maxima. -/
def f32MIN : ℚ := -f32MAX

/-- `heightmap.rs`: authoritative heightmap, row-major, `index = y*width+x`. -/
structure Heightmap where
  data : List ℚ
  width : ℕ
  height : ℕ

/-- `heightmap.rs` `Heightmap::get` (`self.data[(y * self.width + x) as usize]`),
totalised with default `0`; claims supply in-bounds hypotheses. -/
def Heightmap.get (hm : Heightmap) (x y : ℕ) : ℚ :=
  hm.data.getD (y * hm.width + x) 0

/-- `heightmap.rs` `Heightmap::set`. -/
def Heightmap.set (hm : Heightmap) (x y : ℕ) (val : ℚ) : Heightmap :=
  { hm with data := hm.data.set (y * hm.width + x) val }

/-- `u32::to_le_bytes`, little endian. -/
def u32le (v : ℕ) : List ℕ :=
  [v % 256, v / 256 % 256, v / 65536 % 256, v / 16777216 % 256]

/-- `ipc.rs` `IPC_VERSION`. -/
def IPC_VERSION : ℕ := 1

/-- `ipc.rs` `MSG_FULL`. -/
def MSG_FULL : ℕ := 0

/-- `ipc.rs` `MSG_REGION`. -/
def MSG_REGION : ℕ := 1

/-- `ipc.rs` `pack_full`.  `f32le` abstracts `f32::to_le_bytes`
(4 bytes per value). -/
def pack_full (f32le : ℚ → List ℕ) (hm : Heightmap) : List ℕ :=
  let header := u32le IPC_VERSION ++ [MSG_FULL] ++ [0, 0, 0] ++
    u32le hm.width ++ u32le hm.height
  hm.data.foldl (fun buf val => buf ++ f32le val) header

/-- `ipc.rs` `pack_region`: header `[version | type=1 | pad 3B | rx | ry | rw | rh]`
then the sub-rectangle's cells row-major, each through `f32::to_le_bytes`
(abstracted as `f32le`).  The nested loops `for y in ry..ry+rh { for x in
rx..rx+rw { … } }` are the two folds. -/
def pack_region (f32le : ℚ → List ℕ) (hm : Heightmap) (rx ry rw rh : ℕ) : List ℕ :=
  let header := u32le IPC_VERSION ++ [MSG_REGION] ++ [0, 0, 0] ++
    u32le rx ++ u32le ry ++ u32le rw ++ u32le rh
  (List.range rh).foldl
    (fun buf j =>
      (List.range rw).foldl (fun buf i => buf ++ f32le (hm.get (rx + i) (ry + j))) buf)
    header

/-! ### Shared list lemmas -/

/-- Appending-style folds flatten to `flatMap`. -/
theorem foldl_append_flatMap {α β : Type} (f : β → List α) (l : List β) (buf : List α) :
    l.foldl (fun b x => b ++ f x) buf = buf ++ l.flatMap f := by
  induction l generalizing buf with
  | nil => simp
  | cons a t ih => simp [ih, List.append_assoc]

/-- `List.set` then `getD` at a different index. -/
theorem getD_set_ne (l : List ℚ) (i j : ℕ) (v : ℚ) (h : i ≠ j) :
    (l.set i v).getD j 0 = l.getD j 0 := by
  simp [List.getD, List.getElem?_set, h]

/-- `List.set` then `getD` at the written index. -/
theorem getD_set_self (l : List ℚ) (i : ℕ) (v : ℚ) (h : i < l.length) :
    (l.set i v).getD i 0 = v := by
  simp [List.getD, List.getElem?_set, h]

/-- Sum of a list after overwriting one in-bounds entry. -/
theorem qsum_set (l : List ℚ) : ∀ (i : ℕ), i < l.length → ∀ v,
    (l.set i v).sum = l.sum - l.getD i 0 + v := by
  induction l with
  | nil => simp
  | cons a t ih =>
    intro i hi v
    cases i with
    | zero => simp [List.getD]; ring
    | succ n =>
      simp only [List.set, List.sum_cons, List.getD, List.getElem?_cons_succ]
      rw [ih n (by simpa using hi) v]
      simp [List.getD]
      ring

/-- A fold preserves any invariant preserved by each step. -/
theorem foldl_invariant {α β : Type} (P : α → Prop) (f : α → β → α) (l : List β)
    (step : ∀ a b, b ∈ l → P a → P (f a b)) (a : α) (ha : P a) : P (l.foldl f a) := by
  induction l generalizing a with
  | nil => exact ha
  | cons x t ih =>
    exact ih (fun a b hb => step a b (List.mem_cons_of_mem _ hb)) _
      (step a x (List.mem_cons_self _ _) ha)

/-- `pack_region` flattened: header then the sub-rectangle row-major through the
encoder. -/
theorem pack_region_eq (f32le : ℚ → List ℕ) (hm : Heightmap) (rx ry rw rh : ℕ) :
    pack_region f32le hm rx ry rw rh =
      u32le IPC_VERSION ++ [MSG_REGION] ++ [0, 0, 0] ++
        u32le rx ++ u32le ry ++ u32le rw ++ u32le rh ++
        (List.range rh).flatMap
          (fun j => (List.range rw).flatMap fun i => f32le (hm.get (rx + i) (ry + j))) := by
  unfold pack_region
  have hinner : ∀ (j : ℕ) (buf : List ℕ),
      (List.range rw).foldl (fun buf i => buf ++ f32le (hm.get (rx + i) (ry + j))) buf =
        buf ++ (List.range rw).flatMap fun i => f32le (hm.get (rx + i) (ry + j)) :=
    fun j buf => foldl_append_flatMap _ _ _
  calc (List.range rh).foldl
        (fun buf j => (List.range rw).foldl
          (fun buf i => buf ++ f32le (hm.get (rx + i) (ry + j))) buf)
        (u32le IPC_VERSION ++ [MSG_REGION] ++ [0, 0, 0] ++
          u32le rx ++ u32le ry ++ u32le rw ++ u32le rh)
      = (List.range rh).foldl
        (fun buf j => buf ++ (List.range rw).flatMap fun i => f32le (hm.get (rx + i) (ry + j)))
        (u32le IPC_VERSION ++ [MSG_REGION] ++ [0, 0, 0] ++
          u32le rx ++ u32le ry ++ u32le rw ++ u32le rh) := by
        congr 1
        funext buf j
        exact hinner j buf
    _ = _ := by rw [foldl_append_flatMap]

/-- Length of a row-major payload when every cell encodes to 4 bytes. -/
theorem flatMap_enc_length (f32le : ℚ → List ℕ) (henc : ∀ q, (f32le q).length = 4)
    (g : ℕ → ℚ) (n : ℕ) :
    ((List.range n).flatMap fun i => f32le (g i)).length = n * 4 := by
  rw [List.length_flatMap]
  have : (List.map (List.length ∘ fun i => f32le (g i)) (List.range n)) =
      List.replicate n 4 := by
    refine List.eq_replicate_iff.mpr ⟨by simp, ?_⟩
    intro b hb
    simp only [List.mem_map] at hb
    obtain ⟨a, _, rfl⟩ := hb
    simp [Function.comp, henc]
  rw [this]
  simp [List.sum_replicate, smul_eq_mul, Nat.mul_comm]

/-- **C1.** `pack_region` emits exactly `24 + rw·rh·4` bytes: a little-endian
header `version=1 (u32) | type=1 (u8) | pad 0,0,0 | rx | ry | rw | rh (u32)`
followed by the sub-rectangle's cells in row-major order of the sub-rectangle,
each through the `f32` little-endian encoder; and on the 4×4 grid filled with
`i/15` row-major, `pack_region 1 1 2 2` yields the header bytes
`01000000 01 000000 01000000 01000000 02000000 02000000` followed by the
encodings of cells (1,1), (2,1), (1,2), (2,2). -/
theorem C1_pack_region_layout (f32le : ℚ → List ℕ) (hm : Heightmap) (rx ry rw rh : ℕ)
    (henc : ∀ q, (f32le q).length = 4)
    (hx : rx + rw ≤ hm.width) (hy : ry + rh ≤ hm.height)
    (hlen : hm.data.length = hm.width * hm.height) :
    (pack_region f32le hm rx ry rw rh).length = 24 + rw * rh * 4 ∧
    (pack_region f32le hm rx ry rw rh).take 24 =
      u32le 1 ++ [1, 0, 0, 0] ++ u32le rx ++ u32le ry ++ u32le rw ++ u32le rh ∧
    (pack_region f32le hm rx ry rw rh).drop 24 =
      (List.range rh).flatMap
        (fun j => (List.range rw).flatMap fun i =>
          f32le (hm.data.getD ((ry + j) * hm.width + (rx + i)) 0)) ∧
    pack_region f32le ⟨(List.range 16).map (fun i => (i : ℚ) / 15), 4, 4⟩ 1 1 2 2 =
      [1, 0, 0, 0, 1, 0, 0, 0, 1, 0, 0, 0, 1, 0, 0, 0, 2, 0, 0, 0, 2, 0, 0, 0] ++
        f32le (5 / 15) ++ f32le (6 / 15) ++ f32le (9 / 15) ++ f32le (10 / 15) := by
  have hdr : (u32le IPC_VERSION ++ [MSG_REGION] ++ [0, 0, 0] ++
      u32le rx ++ u32le ry ++ u32le rw ++ u32le rh).length = 24 := by
    simp [u32le, IPC_VERSION, MSG_REGION]
  have hpay : ((List.range rh).flatMap
      (fun j => (List.range rw).flatMap fun i =>
        f32le (hm.get (rx + i) (ry + j)))).length = rw * rh * 4 := by
    rw [List.length_flatMap]
    have : (List.map (List.length ∘ fun j => (List.range rw).flatMap fun i =>
        f32le (hm.get (rx + i) (ry + j))) (List.range rh)) = List.replicate rh (rw * 4) := by
      refine List.eq_replicate_iff.mpr ⟨by simp, ?_⟩
      intro b hb
      simp only [List.mem_map] at hb
      obtain ⟨a, _, rfl⟩ := hb
      simpa [Function.comp] using flatMap_enc_length f32le henc (fun i => hm.get (rx + i) (ry + a)) rw
    rw [this]
    simp [List.sum_replicate, smul_eq_mul]
    ring
  refine ⟨?_, ?_, ?_, ?_⟩
  · rw [pack_region_eq]
    simp only [List.length_append]
    simp only [List.length_append] at hdr
    rw [List.length_flatMap] at hpay ⊢
    omega
  · rw [pack_region_eq, List.take_left' hdr]
    simp [u32le, IPC_VERSION, MSG_REGION]
  · rw [pack_region_eq, List.drop_left' hdr]
    rfl
  · rw [pack_region_eq]
    simp [List.range_succ, u32le, IPC_VERSION, MSG_REGION, Heightmap.get, List.getD]

/-- Witness for C1: the 4×4 `i/15` grid with region (1,1,2,2) satisfies the
hypotheses, and the packed length is `24 + 2·2·4`. -/
theorem C1_pack_region_layout_witness :
    (∀ q : ℚ, ((fun _ : ℚ => [0, 0, 0, 0]) q).length = 4) ∧
    1 + 2 ≤ 4 ∧
    ((List.range 16).map (fun i => (i : ℚ) / 15)).length = 4 * 4 ∧
    (pack_region (fun _ : ℚ => [0, 0, 0, 0])
      ⟨(List.range 16).map (fun i => (i : ℚ) / 15), 4, 4⟩ 1 1 2 2).length = 24 + 2 * 2 * 4 :=
  ⟨fun _ => rfl, by decide, by rfl,
    (C1_pack_region_layout (fun _ : ℚ => [0, 0, 0, 0])
      ⟨(List.range 16).map (fun i => (i : ℚ) / 15), 4, 4⟩ 1 1 2 2
      (fun _ => rfl) (by decide) (by decide) (by rfl)).1⟩

/-! ### `sculpt.rs` — brush engine -/

/-- `sculpt.rs` `BrushOp`. -/
inductive BrushOp
  | raise
  | lower
  | smooth
  | flatten
deriving DecidableEq

/-- `sculpt.rs` `BrushStroke`. -/
structure BrushStroke where
  x : ℚ
  y : ℚ
  radius : ℚ
  strength : ℚ
  op : BrushOp

/-- `sculpt.rs` `sample_avg`: mean of the cell and its up-to-four in-bounds
4-neighbours, read from `data` (the snapshot).  The running `sum`/`count`
pairs mirror the source's four conditionals. -/
def sample_avg (data : List ℚ) (w h : ℕ) (x y : ℕ) : ℚ :=
  let idx := fun (x y : ℕ) => data.getD (y * w + x) 0
  let sc0 : ℚ × ℚ := (idx x y, 1)
  let sc1 := if 0 < x then (sc0.1 + idx (x - 1) y, sc0.2 + 1) else sc0
  let sc2 := if x < w - 1 then (sc1.1 + idx (x + 1) y, sc1.2 + 1) else sc1
  let sc3 := if 0 < y then (sc2.1 + idx x (y - 1), sc2.2 + 1) else sc2
  let sc4 := if y < h - 1 then (sc3.1 + idx x (y + 1), sc3.2 + 1) else sc3
  sc4.1 / sc4.2

/-- `sculpt.rs` `apply_brush`, flatten-target preparation:
`(cx.round() as u32).clamp(0, width-1)` and likewise for `cy`, sampled before
any write. -/
def flattenTarget (hm : Heightmap) (s : BrushStroke) : Option ℚ :=
  match s.op with
  | .flatten =>
      let ix := min (f32AsU32 ((rustRound s.x : ℤ) : ℚ)) (hm.width - 1)
      let iy := min (f32AsU32 ((rustRound s.y : ℤ) : ℚ)) (hm.height - 1)
      some (hm.get ix iy)
  | _ => none

/-- One iteration of `apply_brush`'s inner loop body at cell `(px, py)`:
skip cells outside the radius, otherwise compute the op's new value and write
it clamped to `[0,1]`.  `fexp` abstracts `f32::exp`; the source's falloff is
`(-t * 3.0).exp()`. -/
def brushCellUpdate (fexp : ℚ → ℚ) (s : BrushStroke) (ft : Option ℚ)
    (snap : Option (List ℚ)) (w h : ℕ) (d : List ℚ) (px py : ℕ) : List ℚ :=
  let dx := (px : ℚ) - s.x
  let dy := (py : ℚ) - s.y
  let dist_sq := dx * dx + dy * dy
  let r_sq := s.radius * s.radius
  if r_sq < dist_sq then d
  else
    let t := dist_sq / r_sq
    let falloff := fexp (-t * 3)
    let influence := s.strength * falloff
    let current := d.getD (py * w + px) 0
    let new_val :=
      match s.op with
      | .raise => current + influence * (2 / 100)
      | .lower => current - influence * (2 / 100)
      | .flatten => current + (ft.getD 0 - current) * influence
      | .smooth => current + (sample_avg (snap.getD []) w h px py - current) * influence
    d.set (py * w + px) (qclamp new_val 0 1)

/-- The cell visit order of `apply_brush`'s nested loops
(`for py in y0..=y1 { for px in x0..=x1 { … } }`), row-major. -/
def rectCells (x0 x1 y0 y1 : ℕ) : List (ℕ × ℕ) :=
  (List.range (y1 + 1 - y0)).flatMap fun j =>
    (List.range (x1 + 1 - x0)).map fun i => (x0 + i, y0 + j)

/-- `apply_brush`'s smooth-snapshot preparation (`hm.data.clone()` before any
write, only for the smooth op). -/
def smoothSnap (hm : Heightmap) (s : BrushStroke) : Option (List ℚ) :=
  match s.op with
  | .smooth => some hm.data
  | _ => none

/-- The clamped integer bounds `x0, y0, x1, y1` of `apply_brush`:
`x0 = (cx-r).floor().max(0.0) as u32`, `x1 = ((cx+r).ceil() as u32).min(w-1)`
(the `as u32` casts saturate), and likewise for `y`. -/
def brushBounds (hm : Heightmap) (s : BrushStroke) : ℕ × ℕ × ℕ × ℕ :=
  (f32AsU32 (max ((⌊s.x - s.radius⌋ : ℤ) : ℚ) 0),
   f32AsU32 (max ((⌊s.y - s.radius⌋ : ℤ) : ℚ) 0),
   min (f32AsU32 ((⌈s.x + s.radius⌉ : ℤ) : ℚ)) (hm.width - 1),
   min (f32AsU32 ((⌈s.y + s.radius⌉ : ℤ) : ℚ)) (hm.height - 1))

/-- The double loop of `apply_brush` over `[x0,x1] × [y0,y1]`. -/
def brushLoop (fexp : ℚ → ℚ) (s : BrushStroke) (ft : Option ℚ)
    (snap : Option (List ℚ)) (w h x0 x1 y0 y1 : ℕ) (data : List ℚ) : List ℚ :=
  (rectCells x0 x1 y0 y1).foldl
    (fun d p => brushCellUpdate fexp s ft snap w h d p.1 p.2) data

/-- `sculpt.rs` `apply_brush`.  Returns the mutated heightmap and the bounding
box `(x, y, w, h)` of the affected region; early return of the zero rectangle
when `x0 > x1 ∨ y0 > y1`. -/
def apply_brush (fexp : ℚ → ℚ) (hm : Heightmap) (s : BrushStroke) :
    Heightmap × (ℕ × ℕ × ℕ × ℕ) :=
  let b := brushBounds hm s
  let x0 := b.1
  let y0 := b.2.1
  let x1 := b.2.2.1
  let y1 := b.2.2.2
  if x1 < x0 ∨ y1 < y0 then (hm, (0, 0, 0, 0))
  else
    let data' := brushLoop fexp s (flattenTarget hm s) (smoothSnap hm s)
      hm.width hm.height x0 x1 y0 y1 hm.data
    ({ hm with data := data' }, (x0, y0, x1 - x0 + 1, y1 - y0 + 1))

/-! ### Brush helper lemmas -/

theorem qclamp_le_one (x : ℚ) : qclamp x 0 1 ≤ 1 := min_le_right _ _

theorem qclamp_nonneg (x : ℚ) : 0 ≤ qclamp x 0 1 :=
  le_min (le_max_right _ _) zero_le_one

theorem le_qclamp (x c : ℚ) (h : c ≤ x) (hc1 : c ≤ 1) : c ≤ qclamp x 0 1 :=
  le_min (le_max_of_le_left h) hc1

theorem qclamp_le (x c : ℚ) (h : x ≤ c) (hc0 : 0 ≤ c) : qclamp x 0 1 ≤ c :=
  min_le_of_left_le (max_le h hc0)

theorem qclamp_eq_self (x : ℚ) (h0 : 0 ≤ x) (h1 : x ≤ 1) : qclamp x 0 1 = x := by
  unfold qclamp
  rw [max_eq_left h0, min_eq_left h1]

/-- Clamping to `[0,1]` never moves a value away from a target already in
`[0,1]`. -/
theorem abs_qclamp_sub_le (x t : ℚ) (ht0 : 0 ≤ t) (ht1 : t ≤ 1) :
    |qclamp x 0 1 - t| ≤ |x - t| := by
  unfold qclamp
  rcases le_total x 0 with hx | hx
  · rw [max_eq_right hx, min_eq_left zero_le_one]
    rw [abs_of_nonpos (by linarith), abs_of_nonpos (by linarith)]
    linarith
  · rw [max_eq_left hx]
    rcases le_total x 1 with hx1 | hx1
    · rw [min_eq_left hx1]
    · rw [min_eq_right hx1]
      rw [abs_of_nonneg (by linarith), abs_of_nonneg (by linarith)]
      linarith

/-- Every `getD _ 0` read from a `[0,1]`-valued buffer is in `[0,1]`. -/
theorem getD_bounds (l : List ℚ) (hl : ∀ v ∈ l, 0 ≤ v ∧ v ≤ 1) (i : ℕ) :
    0 ≤ l.getD i 0 ∧ l.getD i 0 ≤ 1 := by
  rcases Nat.lt_or_ge i l.length with h | h
  · have : l.getD i 0 = l[i] := by simp [List.getD, List.getElem?_eq_getElem h]
    rw [this]
    exact hl _ (l.getElem_mem h)
  · have : l.getD i 0 = 0 := by simp [List.getD, List.getElem?_eq_none h]
    rw [this]
    norm_num

/-- The 5-tap mean stays inside `[0,1]` on a `[0,1]`-valued snapshot. -/
theorem sample_avg_bounds (data : List ℚ) (hl : ∀ v ∈ data, 0 ≤ v ∧ v ≤ 1)
    (w h x y : ℕ) : 0 ≤ sample_avg data w h x y ∧ sample_avg data w h x y ≤ 1 := by
  have hb : ∀ i : ℕ, 0 ≤ data.getD i 0 ∧ data.getD i 0 ≤ 1 := getD_bounds data hl
  obtain ⟨a0, a1⟩ := hb (y * w + x)
  obtain ⟨b0, b1⟩ := hb (y * w + (x - 1))
  obtain ⟨c0, c1⟩ := hb (y * w + (x + 1))
  obtain ⟨d0, d1⟩ := hb ((y - 1) * w + x)
  obtain ⟨e0, e1⟩ := hb ((y + 1) * w + x)
  unfold sample_avg
  dsimp only
  split_ifs <;> dsimp only <;>
    exact ⟨div_nonneg (by linarith) (by norm_num),
      (div_le_one (by norm_num)).mpr (by linarith)⟩

/-- Cells visited by the brush loop lie in `[x0,x1] × [y0,y1]`. -/
theorem mem_rectCells {x0 x1 y0 y1 : ℕ} {p : ℕ × ℕ} (hp : p ∈ rectCells x0 x1 y0 y1) :
    x0 ≤ p.1 ∧ p.1 ≤ x1 ∧ y0 ≤ p.2 ∧ p.2 ≤ y1 := by
  unfold rectCells at hp
  simp only [List.mem_flatMap, List.mem_map, List.mem_range] at hp
  obtain ⟨j, hj, i, hi, rfl⟩ := hp
  refine ⟨Nat.le_add_right _ _, by omega, Nat.le_add_right _ _, by omega⟩

/-- One brush-cell update keeps the buffer length. -/
theorem brushCellUpdate_length (fexp : ℚ → ℚ) (s : BrushStroke) (ft : Option ℚ)
    (snap : Option (List ℚ)) (w h : ℕ) (d : List ℚ) (px py : ℕ) :
    (brushCellUpdate fexp s ft snap w h d px py).length = d.length := by
  unfold brushCellUpdate
  dsimp only
  split_ifs <;> simp

/-- The falloff weight `exp(-3 d²/r²)` is in `[0,1]` for any exponential-like
`fexp` bounded on the nonpositive axis. -/
theorem falloff_bounds (fexp : ℚ → ℚ) (hf : ∀ u : ℚ, u ≤ 0 → 0 ≤ fexp u ∧ fexp u ≤ 1)
    (dist_sq r_sq : ℚ) (hd : 0 ≤ dist_sq) (hr : 0 ≤ r_sq) :
    0 ≤ fexp (-(dist_sq / r_sq) * 3) ∧ fexp (-(dist_sq / r_sq) * 3) ≤ 1 := by
  have ht : 0 ≤ dist_sq / r_sq := div_nonneg hd hr
  exact hf _ (by linarith)

theorem flatIndex_inj {w px py px' py' : ℕ} (hpx : px < w) (hpx' : px' < w)
    (h : py * w + px = py' * w + px') : px = px' ∧ py = py' := by
  have hw : 0 < w := Nat.pos_of_ne_zero (by omega)
  have hmod : (py * w + px) % w = px := by
    rw [Nat.add_comm, Nat.add_mul_mod_self_right, Nat.mod_eq_of_lt hpx]
  have hmod' : (py' * w + px') % w = px' := by
    rw [Nat.add_comm, Nat.add_mul_mod_self_right, Nat.mod_eq_of_lt hpx']
  have hdiv : (py * w + px) / w = py := by
    rw [Nat.add_comm, Nat.add_mul_div_right _ _ hw, Nat.div_eq_of_lt hpx, Nat.zero_add]
  have hdiv' : (py' * w + px') / w = py' := by
    rw [Nat.add_comm, Nat.add_mul_div_right _ _ hw, Nat.div_eq_of_lt hpx', Nat.zero_add]
  exact ⟨by rw [← hmod, ← hmod', h], by rw [← hdiv, ← hdiv', h]⟩

theorem brush_fold_frame (fexp : ℚ → ℚ) (s : BrushStroke) (ft : Option ℚ)
    (snap : Option (List ℚ)) (w h x0 x1 y0 y1 : ℕ) (data : List ℚ)
    (hx1 : x1 < w) (px py : ℕ) (hpx : px < w)
    (hout : px < x0 ∨ x1 < px ∨ py < y0 ∨ y1 < py) :
    (brushLoop fexp s ft snap w h x0 x1 y0 y1 data).getD (py * w + px) 0 =
      data.getD (py * w + px) 0 := by
  unfold brushLoop
  refine foldl_invariant (fun d => d.getD (py * w + px) 0 = data.getD (py * w + px) 0)
    (fun d p => brushCellUpdate fexp s ft snap w h d p.1 p.2) (rectCells x0 x1 y0 y1)
    ?_ data rfl
  intro d p hp hP
  obtain ⟨h1, h2, h3, h4⟩ := mem_rectCells hp
  unfold brushCellUpdate
  dsimp only
  split_ifs with hskip
  · exact hP
  · rw [getD_set_ne]
    · exact hP
    · intro heq
      have hpx' : p.1 < w := lt_of_le_of_lt h2 hx1
      obtain ⟨hxeq, hyeq⟩ := flatIndex_inj hpx' hpx heq
      omega

theorem apply_brush_split (fexp : ℚ → ℚ) (hm : Heightmap) (s : BrushStroke) :
    apply_brush fexp hm s =
      if (brushBounds hm s).2.2.1 < (brushBounds hm s).1 ∨
          (brushBounds hm s).2.2.2 < (brushBounds hm s).2.1 then (hm, (0, 0, 0, 0))
      else
        ({ hm with data := (brushLoop fexp s (flattenTarget hm s) (smoothSnap hm s)
            hm.width hm.height (brushBounds hm s).1 (brushBounds hm s).2.2.1
            (brushBounds hm s).2.1 (brushBounds hm s).2.2.2 hm.data) },
          ((brushBounds hm s).1, (brushBounds hm s).2.1,
           (brushBounds hm s).2.2.1 - (brushBounds hm s).1 + 1,
           (brushBounds hm s).2.2.2 - (brushBounds hm s).2.1 + 1)) := rfl

theorem apply_brush_eq_of (fexp : ℚ → ℚ) (hm : Heightmap) (s : BrushStroke)
    {X0 Y0 X1 Y1 : ℕ} (hB : brushBounds hm s = (X0, Y0, X1, Y1)) :
    apply_brush fexp hm s =
      if X1 < X0 ∨ Y1 < Y0 then (hm, (0, 0, 0, 0))
      else
        ({ hm with data := (brushLoop fexp s (flattenTarget hm s) (smoothSnap hm s)
            hm.width hm.height X0 X1 Y0 Y1 hm.data) },
          (X0, Y0, X1 - X0 + 1, Y1 - Y0 + 1)) := by
  unfold apply_brush
  rw [hB]

theorem C2_brush_dirty_rect (fexp : ℚ → ℚ) (hm : Heightmap) (s : BrushStroke)
    (hw : 1 ≤ hm.width) (hh : 1 ≤ hm.height) :
    (∀ px py : ℕ, px < hm.width → py < hm.height →
      (px < (apply_brush fexp hm s).2.1 ∨
        (apply_brush fexp hm s).2.1 + (apply_brush fexp hm s).2.2.2.1 ≤ px ∨
        py < (apply_brush fexp hm s).2.2.1 ∨
        (apply_brush fexp hm s).2.2.1 + (apply_brush fexp hm s).2.2.2.2 ≤ py) →
      (apply_brush fexp hm s).1.data.getD (py * hm.width + px) 0 =
        hm.data.getD (py * hm.width + px) 0) ∧
    (0 ≤ s.radius →
      (s.x + s.radius < 0 ∨ (hm.width : ℚ) - 1 < s.x - s.radius ∨
        s.y + s.radius < 0 ∨ (hm.height : ℚ) - 1 < s.y - s.radius) →
      (apply_brush fexp hm s).1.data = hm.data) := by
  obtain ⟨X0, Y0, X1, Y1, hB⟩ : ∃ a b c d, brushBounds hm s = (a, b, c, d) :=
    ⟨_, _, _, _, rfl⟩
  rw [apply_brush_eq_of fexp hm s hB]
  have hX1w : X1 < hm.width := by
    have h5 : (brushBounds hm s).2.2.1 ≤ hm.width - 1 := min_le_right _ _
    rw [hB] at h5
    simp only at h5
    omega
  have hY1h : Y1 ≤ hm.height - 1 := by
    have h5 : (brushBounds hm s).2.2.2 ≤ hm.height - 1 := min_le_right _ _
    rw [hB] at h5
    simpa using h5
  by_cases hc : X1 < X0 ∨ Y1 < Y0
  · rw [if_pos hc]
    exact ⟨fun _ _ _ _ _ => rfl, fun _ _ => rfl⟩
  · rw [if_neg hc]
    push_neg at hc
    obtain ⟨hcx, hcy⟩ := hc
    constructor
    · intro px py hpx hpy hout
      dsimp only at hout ⊢
      exact brush_fold_frame fexp s (flattenTarget hm s) (smoothSnap hm s)
        hm.width hm.height _ _ _ _ hm.data hX1w px py hpx (by omega)
    · intro hr hdisj
      dsimp only
      unfold brushLoop
      have hstep : ∀ (d : List ℚ) (p : ℕ × ℕ), p ∈ rectCells X0 X1 Y0 Y1 →
          d = hm.data →
          brushCellUpdate fexp s (flattenTarget hm s) (smoothSnap hm s)
            hm.width hm.height d p.1 p.2 = hm.data := ?_
      case _ => exact foldl_invariant (fun d => d = hm.data) _ _ hstep hm.data rfl
      intro d p hp hPd
      obtain ⟨h1, h2, h3, h4⟩ := mem_rectCells hp
      have hpxw : p.1 ≤ hm.width - 1 := by omega
      have hpyh : p.2 ≤ hm.height - 1 := by omega
      have hpxQ : (p.1 : ℚ) ≤ (hm.width : ℚ) - 1 := by
        have h5 : ((hm.width - 1 : ℕ) : ℚ) = (hm.width : ℚ) - 1 := by
          push_cast [Nat.cast_sub hw]
          ring
        calc (p.1 : ℚ) ≤ ((hm.width - 1 : ℕ) : ℚ) := by exact_mod_cast hpxw
          _ = _ := h5
      have hpyQ : (p.2 : ℚ) ≤ (hm.height : ℚ) - 1 := by
        have h5 : ((hm.height - 1 : ℕ) : ℚ) = (hm.height : ℚ) - 1 := by
          push_cast [Nat.cast_sub hh]
          ring
        calc (p.2 : ℚ) ≤ ((hm.height - 1 : ℕ) : ℚ) := by exact_mod_cast hpyh
          _ = _ := h5
      have hax : (0 : ℚ) ≤ (p.1 : ℚ) := Nat.cast_nonneg _
      have hay : (0 : ℚ) ≤ (p.2 : ℚ) := Nat.cast_nonneg _
      have hcond : s.radius * s.radius <
          ((p.1 : ℚ) - s.x) * ((p.1 : ℚ) - s.x) + ((p.2 : ℚ) - s.y) * ((p.2 : ℚ) - s.y) := by
        rcases hdisj with hd | hd | hd | hd
        · have key : s.radius < (p.1 : ℚ) - s.x := by linarith
          have h1' := mul_self_lt_mul_self hr key
          linarith [mul_self_nonneg ((p.2 : ℚ) - s.y)]
        · have key : s.radius < s.x - (p.1 : ℚ) := by linarith
          have h1' := mul_self_lt_mul_self hr key
          have h2' : (s.x - (p.1 : ℚ)) * (s.x - (p.1 : ℚ)) =
              ((p.1 : ℚ) - s.x) * ((p.1 : ℚ) - s.x) := by ring
          rw [h2'] at h1'
          linarith [mul_self_nonneg ((p.2 : ℚ) - s.y)]
        · have key : s.radius < (p.2 : ℚ) - s.y := by linarith
          have h1' := mul_self_lt_mul_self hr key
          linarith [mul_self_nonneg ((p.1 : ℚ) - s.x)]
        · have key : s.radius < s.y - (p.2 : ℚ) := by linarith
          have h1' := mul_self_lt_mul_self hr key
          have h2' : (s.y - (p.2 : ℚ)) * (s.y - (p.2 : ℚ)) =
              ((p.2 : ℚ) - s.y) * ((p.2 : ℚ) - s.y) := by ring
          rw [h2'] at h1'
          linarith [mul_self_nonneg ((p.1 : ℚ) - s.x)]
      unfold brushCellUpdate
      dsimp only
      rw [if_pos hcond]
      exact hPd


/-- Counterexample for C2 as stated: on an 8×8 grid, the stroke centred at
`(-10, 5)` with radius 2 has its bounding box entirely to the left of the
grid (`cx + r = -8 < 0`), yet `apply_brush` returns the rectangle
`(0, 3, 1, 5)` (the saturating `as u32` cast clamps the box to column 0);
and the stroke centred at `(9.5, 5)` with radius 2 has its box entirely
beyond the right edge (`w - 1 = 7 < cx - r = 7.5`), yet `apply_brush`
returns `(7, 3, 1, 5)` (`x0 = ⌊7.5⌋ = 7 ≤ x1 = min(12, 7)`).  Neither is
the zero rectangle. -/
theorem C2_zero_rect_counterexample :
    (((-10 : ℚ) + 2 < 0) ∧
      (apply_brush (fun _ => 1) ⟨List.replicate 64 0, 8, 8⟩
          ⟨-10, 5, 2, 1, .raise⟩).2 = (0, 3, 1, 5) ∧
      (apply_brush (fun _ => 1) ⟨List.replicate 64 0, 8, 8⟩
          ⟨-10, 5, 2, 1, .raise⟩).2 ≠ (0, 0, 0, 0)) ∧
    ((((8 : ℕ) : ℚ) - 1 < (19 : ℚ) / 2 - 2) ∧
      (apply_brush (fun _ => 1) ⟨List.replicate 64 0, 8, 8⟩
          ⟨19 / 2, 5, 2, 1, .raise⟩).2 = (7, 3, 1, 5) ∧
      (apply_brush (fun _ => 1) ⟨List.replicate 64 0, 8, 8⟩
          ⟨19 / 2, 5, 2, 1, .raise⟩).2 ≠ (0, 0, 0, 0)) := by
  constructor
  · have hB : brushBounds ⟨List.replicate 64 0, 8, 8⟩
        (⟨-10, 5, 2, 1, .raise⟩ : BrushStroke) = (0, 3, 0, 7) := by
      unfold brushBounds f32AsU32
      norm_num
      exact ⟨by decide, Int.ceil_le.mpr (by norm_num), by decide⟩
    rw [apply_brush_eq_of (fun _ => 1) _ _ hB]
    norm_num
  · have hB : brushBounds ⟨List.replicate 64 0, 8, 8⟩
        (⟨19 / 2, 5, 2, 1, .raise⟩ : BrushStroke) = (7, 3, 7, 7) := by
      unfold brushBounds f32AsU32
      norm_num
      refine ⟨by decide, by decide, ?_, by decide⟩
      have h12 : (⌈(23 : ℚ) / 2⌉ : ℤ) = 12 :=
        Int.ceil_eq_iff.mpr ⟨by norm_num, by norm_num⟩
      rw [h12]
      decide
    rw [apply_brush_eq_of (fun _ => 1) _ _ hB]
    norm_num

/-- Witness for C2: at the off-grid stroke `(-10, 5, r = 2)` on the 8×8 zero
grid the hypotheses hold and the grid is left unchanged. -/
theorem C2_brush_dirty_rect_witness :
    1 ≤ 8 ∧
    ((0 : ℚ) ≤ 2 →
      ((-10 : ℚ) + 2 < 0 ∨ ((8 : ℕ) : ℚ) - 1 < (-10 : ℚ) - 2 ∨
        (5 : ℚ) + 2 < 0 ∨ ((8 : ℕ) : ℚ) - 1 < (5 : ℚ) - 2) →
      (apply_brush (fun _ => 1) ⟨List.replicate 64 0, 8, 8⟩
          ⟨-10, 5, 2, 1, .raise⟩).1.data = List.replicate 64 0) :=
  ⟨by norm_num,
    (C2_brush_dirty_rect (fun _ => 1) ⟨List.replicate 64 0, 8, 8⟩
      ⟨-10, 5, 2, 1, .raise⟩ (by norm_num) (by norm_num)).2⟩

/-- `getD` after `set`, all cases. -/
theorem getD_set_eq_ite (l : List ℚ) (j i : ℕ) (v : ℚ) :
    (l.set j v).getD i 0 = if j = i ∧ j < l.length then v else l.getD i 0 := by
  by_cases hji : j = i ∧ j < l.length
  · obtain ⟨rfl, hlt⟩ := hji
    rw [if_pos ⟨rfl, hlt⟩]
    exact getD_set_self l j v hlt
  · rw [if_neg hji]
    rcases Decidable.not_and_iff_or_not.mp hji with hne | hge
    · exact getD_set_ne l j i v hne
    · have hset : l.set j v = l := List.set_eq_of_length_le (by omega)
      rw [hset]

/-- Specialised invariant rule for the brush loop. -/
theorem brushLoop_invariant (P : List ℚ → Prop) (fexp : ℚ → ℚ) (s : BrushStroke)
    (ft : Option ℚ) (snap : Option (List ℚ)) (w h x0 x1 y0 y1 : ℕ) (data : List ℚ)
    (step : ∀ d p, p ∈ rectCells x0 x1 y0 y1 →
      P d → P (brushCellUpdate fexp s ft snap w h d p.1 p.2))
    (h0 : P data) : P (brushLoop fexp s ft snap w h x0 x1 y0 y1 data) := by
  unfold brushLoop
  have aux : ∀ (l : List (ℕ × ℕ)), (∀ p ∈ l, p ∈ rectCells x0 x1 y0 y1) → ∀ data, P data →
      P (l.foldl (fun d p => brushCellUpdate fexp s ft snap w h d p.1 p.2) data) := by
    intro l
    induction l with
    | nil => exact fun _ data h => h
    | cons q t ih =>
      intro hsub data h
      exact ih (fun p hp => hsub p (List.mem_cons_of_mem _ hp)) _
        (step data q (hsub q (List.mem_cons_self _ _)) h)
  exact aux _ (fun p hp => hp) data h0

/-- Raise never decreases a cell and keeps every cell at most 1. -/
theorem brushLoop_raise_mono (fexp : ℚ → ℚ) (s : BrushStroke) (ft : Option ℚ)
    (snap : Option (List ℚ)) (w h x0 x1 y0 y1 : ℕ) (old : List ℚ)
    (hf : ∀ u : ℚ, u ≤ 0 → 0 ≤ fexp u ∧ fexp u ≤ 1)
    (hs : 0 ≤ s.strength) (hop : s.op = .raise)
    (hold : ∀ i : ℕ, old.getD i 0 ≤ 1) :
    ∀ i : ℕ, old.getD i 0 ≤ (brushLoop fexp s ft snap w h x0 x1 y0 y1 old).getD i 0 ∧
      (brushLoop fexp s ft snap w h x0 x1 y0 y1 old).getD i 0 ≤ 1 := by
  refine brushLoop_invariant
    (fun d => ∀ i : ℕ, old.getD i 0 ≤ d.getD i 0 ∧ d.getD i 0 ≤ 1)
    fexp s ft snap w h x0 x1 y0 y1 old ?_ (fun i => ⟨le_refl _, hold i⟩)
  intro d p hp hP
  unfold brushCellUpdate
  simp only [hop]
  split_ifs with hskip
  · exact hP
  · intro i
    have hdnn : (0:ℚ) ≤ ((p.1 : ℚ) - s.x) * ((p.1 : ℚ) - s.x) +
        ((p.2 : ℚ) - s.y) * ((p.2 : ℚ) - s.y) :=
      add_nonneg (mul_self_nonneg _) (mul_self_nonneg _)
    have hfall := falloff_bounds fexp hf _ _ hdnn (mul_self_nonneg s.radius)
    rw [getD_set_eq_ite]
    split_ifs with hcase
    · obtain ⟨hidx, _⟩ := hcase
      obtain ⟨h1, h2⟩ := hP (p.2 * w + p.1)
      rw [← hidx]
      have hnn : 0 ≤ s.strength *
          fexp (-((((p.1 : ℚ) - s.x) * ((p.1 : ℚ) - s.x) +
            ((p.2 : ℚ) - s.y) * ((p.2 : ℚ) - s.y)) / (s.radius * s.radius)) * 3) * (2 / 100) :=
        mul_nonneg (mul_nonneg hs hfall.1) (by norm_num)
      constructor
      · exact le_trans h1 (le_qclamp _ _ (by linarith) h2)
      · exact qclamp_le_one _
    · exact hP i

/-- Lower never increases a cell and keeps every cell nonnegative. -/
theorem brushLoop_lower_mono (fexp : ℚ → ℚ) (s : BrushStroke) (ft : Option ℚ)
    (snap : Option (List ℚ)) (w h x0 x1 y0 y1 : ℕ) (old : List ℚ)
    (hf : ∀ u : ℚ, u ≤ 0 → 0 ≤ fexp u ∧ fexp u ≤ 1)
    (hs : 0 ≤ s.strength) (hop : s.op = .lower)
    (hold : ∀ i : ℕ, 0 ≤ old.getD i 0) :
    ∀ i : ℕ, (brushLoop fexp s ft snap w h x0 x1 y0 y1 old).getD i 0 ≤ old.getD i 0 ∧
      0 ≤ (brushLoop fexp s ft snap w h x0 x1 y0 y1 old).getD i 0 := by
  refine brushLoop_invariant
    (fun d => ∀ i : ℕ, d.getD i 0 ≤ old.getD i 0 ∧ 0 ≤ d.getD i 0)
    fexp s ft snap w h x0 x1 y0 y1 old ?_ (fun i => ⟨le_refl _, hold i⟩)
  intro d p hp hP
  unfold brushCellUpdate
  simp only [hop]
  split_ifs with hskip
  · exact hP
  · intro i
    have hdnn : (0:ℚ) ≤ ((p.1 : ℚ) - s.x) * ((p.1 : ℚ) - s.x) +
        ((p.2 : ℚ) - s.y) * ((p.2 : ℚ) - s.y) :=
      add_nonneg (mul_self_nonneg _) (mul_self_nonneg _)
    have hfall := falloff_bounds fexp hf _ _ hdnn (mul_self_nonneg s.radius)
    rw [getD_set_eq_ite]
    split_ifs with hcase
    · obtain ⟨hidx, _⟩ := hcase
      obtain ⟨h1, h2⟩ := hP (p.2 * w + p.1)
      rw [← hidx]
      have hnn : 0 ≤ s.strength *
          fexp (-((((p.1 : ℚ) - s.x) * ((p.1 : ℚ) - s.x) +
            ((p.2 : ℚ) - s.y) * ((p.2 : ℚ) - s.y)) / (s.radius * s.radius)) * 3) * (2 / 100) :=
        mul_nonneg (mul_nonneg hs hfall.1) (by norm_num)
      constructor
      · exact le_trans (qclamp_le _ _ (by linarith) h2) h1
      · exact qclamp_nonneg _
    · exact hP i

/-- Flatten moves every cell weakly toward the target, for a target in `[0,1]`
and strength at most 1. -/
theorem brushLoop_flatten_contract (fexp : ℚ → ℚ) (s : BrushStroke) (ft : Option ℚ)
    (snap : Option (List ℚ)) (w h x0 x1 y0 y1 : ℕ) (old : List ℚ)
    (hf : ∀ u : ℚ, u ≤ 0 → 0 ≤ fexp u ∧ fexp u ≤ 1)
    (hs : 0 ≤ s.strength) (hs1 : s.strength ≤ 1) (hop : s.op = .flatten)
    (ht0 : 0 ≤ ft.getD 0) (ht1 : ft.getD 0 ≤ 1) :
    ∀ i : ℕ, |(brushLoop fexp s ft snap w h x0 x1 y0 y1 old).getD i 0 - ft.getD 0| ≤
      |old.getD i 0 - ft.getD 0| := by
  refine brushLoop_invariant
    (fun d => ∀ i : ℕ, |d.getD i 0 - ft.getD 0| ≤ |old.getD i 0 - ft.getD 0|)
    fexp s ft snap w h x0 x1 y0 y1 old ?_ (fun i => le_refl _)
  intro d p hp hP
  unfold brushCellUpdate
  simp only [hop]
  split_ifs with hskip
  · exact hP
  · intro i
    have hdnn : (0:ℚ) ≤ ((p.1 : ℚ) - s.x) * ((p.1 : ℚ) - s.x) +
        ((p.2 : ℚ) - s.y) * ((p.2 : ℚ) - s.y) :=
      add_nonneg (mul_self_nonneg _) (mul_self_nonneg _)
    have hfall := falloff_bounds fexp hf _ _ hdnn (mul_self_nonneg s.radius)
    rw [getD_set_eq_ite]
    split_ifs with hcase
    · obtain ⟨hidx, _⟩ := hcase
      rw [← hidx]
      set F := fexp (-((((p.1 : ℚ) - s.x) * ((p.1 : ℚ) - s.x) +
        ((p.2 : ℚ) - s.y) * ((p.2 : ℚ) - s.y)) / (s.radius * s.radius)) * 3) with hF
      set cur := d.getD (p.2 * w + p.1) 0 with hcur
      have hinfl0 : 0 ≤ s.strength * F := mul_nonneg hs hfall.1
      have hinfl1 : s.strength * F ≤ 1 := by nlinarith [hfall.1, hfall.2]
      calc |qclamp (cur + (ft.getD 0 - cur) * (s.strength * F)) 0 1 - ft.getD 0|
          ≤ |cur + (ft.getD 0 - cur) * (s.strength * F) - ft.getD 0| :=
            abs_qclamp_sub_le _ _ ht0 ht1
        _ = |cur - ft.getD 0| * |1 - s.strength * F| := by
            rw [← abs_mul]
            congr 1
            ring
        _ ≤ |cur - ft.getD 0| * 1 := by
            apply mul_le_mul_of_nonneg_left _ (abs_nonneg _)
            rw [abs_of_nonneg (by linarith)]
            linarith
        _ = |cur - ft.getD 0| := mul_one _
        _ ≤ |old.getD (p.2 * w + p.1) 0 - ft.getD 0| := hP _
    · exact hP i

/-- Smooth never moves a cell past the 5-tap mean of the pre-stroke snapshot,
for strength at most 1 on a `[0,1]` grid. -/
theorem brushLoop_smooth_bound (fexp : ℚ → ℚ) (s : BrushStroke) (ft : Option ℚ)
    (snap : Option (List ℚ)) (w h x0 x1 y0 y1 : ℕ) (old : List ℚ)
    (hf : ∀ u : ℚ, u ≤ 0 → 0 ≤ fexp u ∧ fexp u ≤ 1)
    (hs : 0 ≤ s.strength) (hs1 : s.strength ≤ 1) (hop : s.op = .smooth)
    (hsnap : snap = some old) (hgrid : ∀ v ∈ old, 0 ≤ v ∧ v ≤ 1) (hx1 : x1 < w) :
    ∀ px py : ℕ, px < w →
      min (old.getD (py * w + px) 0) (sample_avg old w h px py) ≤
        (brushLoop fexp s ft snap w h x0 x1 y0 y1 old).getD (py * w + px) 0 ∧
      (brushLoop fexp s ft snap w h x0 x1 y0 y1 old).getD (py * w + px) 0 ≤
        max (old.getD (py * w + px) 0) (sample_avg old w h px py) := by
  refine brushLoop_invariant
    (fun d => ∀ px py : ℕ, px < w →
      min (old.getD (py * w + px) 0) (sample_avg old w h px py) ≤ d.getD (py * w + px) 0 ∧
      d.getD (py * w + px) 0 ≤ max (old.getD (py * w + px) 0) (sample_avg old w h px py))
    fexp s ft snap w h x0 x1 y0 y1 old ?_
    (fun px py _ => ⟨min_le_left _ _, le_max_left _ _⟩)
  intro d p hp hP
  unfold brushCellUpdate
  simp only [hop, hsnap, Option.getD_some]
  split_ifs with hskip
  · exact hP
  · intro px py hpx
    rw [getD_set_eq_ite]
    split_ifs with hcase
    · obtain ⟨hidx, _⟩ := hcase
      have hp1w : p.1 < w := lt_of_le_of_lt (mem_rectCells hp).2.1 hx1
      obtain ⟨hxeq, hyeq⟩ := flatIndex_inj hp1w hpx hidx
      rw [hxeq, hyeq]
      have hdnn : (0:ℚ) ≤ ((px : ℚ) - s.x) * ((px : ℚ) - s.x) +
          ((py : ℚ) - s.y) * ((py : ℚ) - s.y) :=
        add_nonneg (mul_self_nonneg _) (mul_self_nonneg _)
      have hfall := falloff_bounds fexp hf _ _ hdnn (mul_self_nonneg s.radius)
      set F := fexp (-((((px : ℚ) - s.x) * ((px : ℚ) - s.x) +
        ((py : ℚ) - s.y) * ((py : ℚ) - s.y)) / (s.radius * s.radius)) * 3) with hF
      set cur := d.getD (py * w + px) 0 with hcur
      set a := old.getD (py * w + px) 0 with ha
      set avg := sample_avg old w h px py with havg
      obtain ⟨ha0, ha1⟩ := getD_bounds old hgrid (py * w + px)
      obtain ⟨hv0, hv1⟩ := sample_avg_bounds old hgrid w h px py
      have hinfl0 : 0 ≤ s.strength * F := mul_nonneg hs hfall.1
      have hinfl1 : s.strength * F ≤ 1 := by nlinarith [hfall.1, hfall.2]
      obtain ⟨hc1, hc2⟩ := hP px py hpx
      rw [← ha, ← havg, ← hcur] at hc1 hc2
      have e1 : (0:ℚ) ≤ (cur - min a avg) * (1 - s.strength * F) :=
        mul_nonneg (by linarith) (by linarith)
      have e2 : (0:ℚ) ≤ (avg - min a avg) * (s.strength * F) :=
        mul_nonneg (by linarith [min_le_right a avg]) hinfl0
      have e3 : (0:ℚ) ≤ (max a avg - cur) * (1 - s.strength * F) :=
        mul_nonneg (by linarith) (by linarith)
      have e4 : (0:ℚ) ≤ (max a avg - avg) * (s.strength * F) :=
        mul_nonneg (by linarith [le_max_right a avg]) hinfl0
      have hid1 : cur + (avg - cur) * (s.strength * F) - min a avg =
          (cur - min a avg) * (1 - s.strength * F) +
            (avg - min a avg) * (s.strength * F) := by ring
      have hid2 : max a avg - (cur + (avg - cur) * (s.strength * F)) =
          (max a avg - cur) * (1 - s.strength * F) +
            (max a avg - avg) * (s.strength * F) := by ring
      have hval1 : min a avg ≤ cur + (avg - cur) * (s.strength * F) := by linarith
      have hval2 : cur + (avg - cur) * (s.strength * F) ≤ max a avg := by linarith
      have hmin0 : (0:ℚ) ≤ min a avg := le_min ha0 hv0
      have hmax1 : max a avg ≤ 1 := max_le ha1 hv1
      rw [qclamp_eq_self _ (by linarith) (by linarith)]
      exact ⟨hval1, hval2⟩
    · exact hP px py hpx

/-- The brush loop preserves buffer length. -/
theorem brushLoop_length (fexp : ℚ → ℚ) (s : BrushStroke) (ft : Option ℚ)
    (snap : Option (List ℚ)) (w h x0 x1 y0 y1 : ℕ) (data : List ℚ) :
    (brushLoop fexp s ft snap w h x0 x1 y0 y1 data).length = data.length := by
  refine brushLoop_invariant (fun d => d.length = data.length)
    fexp s ft snap w h x0 x1 y0 y1 data ?_ rfl
  intro d p hp hP
  rw [brushCellUpdate_length]
  exact hP

/-- Two lists agreeing in length and in `getD` at every in-bounds index are
equal. -/
theorem list_eq_of_getD (l1 l2 : List ℚ) (hlen : l1.length = l2.length)
    (h : ∀ i : ℕ, i < l1.length → l1.getD i 0 = l2.getD i 0) : l1 = l2 := by
  apply List.ext_getElem hlen
  intro i h1 h2
  have hi := h i h1
  simpa [List.getD, List.getElem?_eq_getElem, h1, h2] using hi

/-- In-bounds `getD` of a uniform list is the common value. -/
theorem getD_eq_of_uniform (l : List ℚ) (c : ℚ) (hc : ∀ v ∈ l, v = c) (i : ℕ)
    (hi : i < l.length) : l.getD i 0 = c := by
  have hgl : l.getD i 0 = l[i] := by simp [List.getD, List.getElem?_eq_getElem hi]
  rw [hgl]
  exact hc _ (l.getElem_mem hi)

/-- Row-major index bound. -/
theorem flatIdx_lt {w h ix iy : ℕ} (hw : 1 ≤ w) (hh : 1 ≤ h) (hix : ix ≤ w - 1)
    (hiy : iy ≤ h - 1) : iy * w + ix < w * h := by
  have h2 : iy + 1 ≤ h := by omega
  calc iy * w + ix < iy * w + w := by omega
    _ = (iy + 1) * w := by ring
    _ ≤ h * w := Nat.mul_le_mul_right w h2
    _ = w * h := Nat.mul_comm _ _

/-- **C3.** Brush op semantics on a `[0,1]` grid with nonnegative strength:
Raise never decreases any cell and leaves every cell at most 1 (the Raise
clamp scenario is an instance); Lower never increases any cell; with strength
at most 1, Flatten moves every cell weakly toward the target sampled at the
rounded centre (`|h' - target| ≤ |h - target|`), so a uniform grid is a fixed
point of Flatten; and Smooth never moves a cell past the 5-tap neighbourhood
mean computed from the pre-stroke snapshot. -/
theorem C3_brush_op_semantics (fexp : ℚ → ℚ) (hm : Heightmap) (s : BrushStroke)
    (hf : ∀ u : ℚ, u ≤ 0 → 0 ≤ fexp u ∧ fexp u ≤ 1)
    (hw : 1 ≤ hm.width) (hh : 1 ≤ hm.height)
    (hlen : hm.data.length = hm.width * hm.height)
    (hgrid : ∀ v ∈ hm.data, 0 ≤ v ∧ v ≤ 1)
    (hs : 0 ≤ s.strength) :
    (s.op = .raise → ∀ i : ℕ, hm.data.getD i 0 ≤ (apply_brush fexp hm s).1.data.getD i 0 ∧
      (apply_brush fexp hm s).1.data.getD i 0 ≤ 1) ∧
    (s.op = .lower → ∀ i : ℕ, (apply_brush fexp hm s).1.data.getD i 0 ≤ hm.data.getD i 0) ∧
    (s.op = .flatten → s.strength ≤ 1 → ∀ i : ℕ,
      |(apply_brush fexp hm s).1.data.getD i 0 - (flattenTarget hm s).getD 0| ≤
        |hm.data.getD i 0 - (flattenTarget hm s).getD 0|) ∧
    (s.op = .smooth → s.strength ≤ 1 → ∀ px py : ℕ, px < hm.width →
      min (hm.data.getD (py * hm.width + px) 0) (sample_avg hm.data hm.width hm.height px py) ≤
        (apply_brush fexp hm s).1.data.getD (py * hm.width + px) 0 ∧
      (apply_brush fexp hm s).1.data.getD (py * hm.width + px) 0 ≤
        max (hm.data.getD (py * hm.width + px) 0) (sample_avg hm.data hm.width hm.height px py)) ∧
    (s.op = .flatten → s.strength ≤ 1 → ∀ c : ℚ, 0 ≤ c → c ≤ 1 →
      (∀ v ∈ hm.data, v = c) → (apply_brush fexp hm s).1.data = hm.data) := by
  obtain ⟨X0, Y0, X1, Y1, hB⟩ : ∃ a b c d, brushBounds hm s = (a, b, c, d) :=
    ⟨_, _, _, _, rfl⟩
  rw [apply_brush_eq_of fexp hm s hB]
  have hX1w : X1 < hm.width := by
    have h5 : (brushBounds hm s).2.2.1 ≤ hm.width - 1 := min_le_right _ _
    rw [hB] at h5
    simp only at h5
    omega
  by_cases hc : X1 < X0 ∨ Y1 < Y0
  · rw [if_pos hc]
    refine ⟨fun _ i => ⟨le_refl _, (getD_bounds hm.data hgrid i).2⟩,
      fun _ i => le_refl _,
      fun _ _ i => le_refl _,
      fun _ _ px py _ => ⟨min_le_left _ _, le_max_left _ _⟩,
      fun _ _ c _ _ _ => rfl⟩
  · rw [if_neg hc]
    dsimp only
    refine ⟨?_, ?_, ?_, ?_, ?_⟩
    · intro hop i
      exact brushLoop_raise_mono fexp s (flattenTarget hm s) (smoothSnap hm s)
        hm.width hm.height X0 X1 Y0 Y1 hm.data hf hs hop
        (fun j => (getD_bounds hm.data hgrid j).2) i
    · intro hop i
      exact (brushLoop_lower_mono fexp s (flattenTarget hm s) (smoothSnap hm s)
        hm.width hm.height X0 X1 Y0 Y1 hm.data hf hs hop
        (fun j => (getD_bounds hm.data hgrid j).1) i).1
    · intro hop hs1 i
      have hft : 0 ≤ (flattenTarget hm s).getD 0 ∧ (flattenTarget hm s).getD 0 ≤ 1 := by
        simp only [flattenTarget, hop, Option.getD_some, Heightmap.get]
        exact getD_bounds hm.data hgrid _
      exact brushLoop_flatten_contract fexp s (flattenTarget hm s) (smoothSnap hm s)
        hm.width hm.height X0 X1 Y0 Y1 hm.data hf hs hs1 hop hft.1 hft.2 i
    · intro hop hs1 px py hpx
      exact brushLoop_smooth_bound fexp s (flattenTarget hm s) (smoothSnap hm s)
        hm.width hm.height X0 X1 Y0 Y1 hm.data hf hs hs1 hop
        (by simp [smoothSnap, hop]) hgrid hX1w px py hpx
    · intro hop hs1 c hc0 hc1 huni
      have hidxlt : (min (f32AsU32 ((rustRound s.y : ℤ) : ℚ)) (hm.height - 1)) * hm.width +
          (min (f32AsU32 ((rustRound s.x : ℤ) : ℚ)) (hm.width - 1)) < hm.data.length := by
        rw [hlen]
        exact flatIdx_lt hw hh (min_le_right _ _) (min_le_right _ _)
      have ht0c : (flattenTarget hm s).getD 0 = c := by
        simp only [flattenTarget, hop, Option.getD_some, Heightmap.get]
        exact getD_eq_of_uniform hm.data c huni _ hidxlt
      have hcontr := brushLoop_flatten_contract fexp s (flattenTarget hm s)
        (smoothSnap hm s) hm.width hm.height X0 X1 Y0 Y1 hm.data hf hs hs1 hop
        (by rw [ht0c]; exact hc0) (by rw [ht0c]; exact hc1)
      apply list_eq_of_getD _ _
        (brushLoop_length fexp s (flattenTarget hm s) (smoothSnap hm s)
          hm.width hm.height X0 X1 Y0 Y1 hm.data)
      intro i hi
      rw [brushLoop_length fexp s (flattenTarget hm s) (smoothSnap hm s)
        hm.width hm.height X0 X1 Y0 Y1 hm.data] at hi
      have h1 := hcontr i
      rw [ht0c] at h1
      have h2 : hm.data.getD i 0 = c := getD_eq_of_uniform hm.data c huni i hi
      rw [h2] at h1
      simp only [sub_self, abs_zero] at h1
      have h3 : |(brushLoop fexp s (flattenTarget hm s) (smoothSnap hm s)
          hm.width hm.height X0 X1 Y0 Y1 hm.data).getD i 0 - c| = 0 :=
        le_antisymm h1 (abs_nonneg _)
      have h4 := abs_eq_zero.mp h3
      rw [h2]
      linarith

/-- Witness for C3: the Raise-clamp scenario — an 11×11 grid filled with 0.99
and a Raise stroke of strength 10, radius 5 at the centre — satisfies the
hypotheses, and no cell decreases or exceeds 1. -/
theorem C3_brush_op_semantics_witness :
    (∀ u : ℚ, u ≤ 0 → 0 ≤ (fun _ : ℚ => (1 : ℚ) / 2) u ∧ (fun _ : ℚ => (1 : ℚ) / 2) u ≤ 1) ∧
    (∀ v ∈ List.replicate 121 ((99 : ℚ) / 100), 0 ≤ v ∧ v ≤ 1) ∧
    (0 : ℚ) ≤ 10 ∧
    ((⟨5, 5, 5, 10, .raise⟩ : BrushStroke).op = .raise →
      ∀ i : ℕ, (List.replicate 121 ((99 : ℚ) / 100)).getD i 0 ≤
          (apply_brush (fun _ => (1 : ℚ) / 2) ⟨List.replicate 121 ((99 : ℚ) / 100), 11, 11⟩
            ⟨5, 5, 5, 10, .raise⟩).1.data.getD i 0 ∧
        (apply_brush (fun _ => (1 : ℚ) / 2) ⟨List.replicate 121 ((99 : ℚ) / 100), 11, 11⟩
          ⟨5, 5, 5, 10, .raise⟩).1.data.getD i 0 ≤ 1) :=
  ⟨fun _ _ => by norm_num,
   fun v hv => by rw [List.eq_of_mem_replicate hv]; norm_num,
   by norm_num,
   (C3_brush_op_semantics (fun _ => (1 : ℚ) / 2)
      ⟨List.replicate 121 ((99 : ℚ) / 100), 11, 11⟩ ⟨5, 5, 5, 10, .raise⟩
      (fun _ _ => by norm_num) (by norm_num) (by norm_num) (by simp)
      (fun v hv => by rw [List.eq_of_mem_replicate hv]; norm_num) (by norm_num)).1⟩

/-! ### `erosion/thermal.rs` -/

/-- `thermal.rs` `ThermalParams`. -/
structure ThermalParams where
  iterations : ℕ
  talus : ℚ
  transfer_rate : ℚ

/-- The 4-neighbour offsets of `thermal.rs`, in source order. -/
def thermalNeighbors : List (ℤ × ℤ) := [(-1, 0), (1, 0), (0, -1), (0, 1)]

/-- The qualifying-neighbour collection of one thermal cell: skip
out-of-bounds neighbours, keep `(diff, dx, dy)` whenever
`slope = diff / cell_size > talus` (reads come from the snapshot). -/
def collectDiffs (snap : List ℚ) (w h x y : ℤ) (cellSize talus : ℚ) :
    List (ℚ × ℤ × ℤ) :=
  thermalNeighbors.filterMap fun d =>
    let nx := x + d.1
    let ny := y + d.2
    if nx < 0 ∨ w ≤ nx ∨ ny < 0 ∨ h ≤ ny then none
    else
      let diff := snap.getD (y * w + x).toNat 0 - snap.getD (ny * w + nx).toNat 0
      if talus < diff / cellSize then some (diff, d.1, d.2) else none

/-- The inner transfer loop of one thermal cell: for each qualifying
neighbour, `transfer = excess * (diff / totalDiff)` is subtracted at the
centre index and added at the neighbour index, sequentially on the live
buffer. -/
def thermalTransferFold (E T : ℚ) (w x y : ℤ) (l : List (ℚ × ℤ × ℤ))
    (dd : List ℚ) : List ℚ :=
  l.foldl (fun dd t =>
    let transfer := E * (t.1 / T)
    let idx := (y * w + x).toNat
    let nidx := ((y + t.2.2) * w + (x + t.2.1)).toNat
    let d1 := dd.set idx (dd.getD idx 0 - transfer)
    d1.set nidx (d1.getD nidx 0 + transfer)) dd

/-- Processing of one cell in a thermal sweep: if any neighbour qualifies,
distribute `excess = (maxDiff - talus*cellSize)*transferRate` proportionally
to `diff/totalDiff`, subtracting each transfer from the centre and adding it
to the neighbour, in place on the live buffer. -/
def thermalProcessCell (snap : List ℚ) (w h x y : ℤ)
    (talus transferRate cellSize : ℚ) (data : List ℚ) : List ℚ :=
  let ds := collectDiffs snap w h x y cellSize talus
  if ds.isEmpty then data
  else
    let totalDiff := (ds.map fun t => t.1).sum
    let maxDiff := ds.foldl (fun m t => if m < t.1 then t.1 else m) 0
    let excess := (maxDiff - talus * cellSize) * transferRate
    thermalTransferFold excess totalDiff w x y ds data

/-- One thermal iteration: snapshot the grid, then process every cell in
row-major order, mutating the live buffer. -/
def thermalSweep (talus transferRate cellSize : ℚ) (w h : ℕ)
    (data : List ℚ) : List ℚ :=
  (List.range h).foldl (fun d (y : ℕ) =>
    (List.range w).foldl (fun d (x : ℕ) =>
      thermalProcessCell data (w : ℤ) (h : ℤ) (x : ℤ) (y : ℤ)
        talus transferRate cellSize d) d) data

/-- `thermal.rs` `erode`: `iterations` sweeps with `cell_size = 1/width`. -/
def Thermal.erode (hm : Heightmap) (p : ThermalParams) : Heightmap :=
  let cellSize := 1 / (hm.width : ℚ)
  { hm with data := ((List.range p.iterations).foldl
      (fun d _ => thermalSweep p.talus p.transfer_rate cellSize hm.width hm.height d)
      hm.data) }

/-- Members of `collectDiffs` are in-bounds neighbours. -/
theorem collectDiffs_mem {snap : List ℚ} {w h x y : ℤ} {cs talus : ℚ}
    {t : ℚ × ℤ × ℤ} (ht : t ∈ collectDiffs snap w h x y cs talus) :
    0 ≤ x + t.2.1 ∧ x + t.2.1 < w ∧ 0 ≤ y + t.2.2 ∧ y + t.2.2 < h := by
  unfold collectDiffs at ht
  simp only [List.mem_filterMap] at ht
  obtain ⟨d, hd, hf⟩ := ht
  split_ifs at hf with h1 h2
  · injection hf with hf2
    rw [← hf2]
    push_neg at h1
    exact ⟨h1.1, h1.2.1, h1.2.2.1, h1.2.2.2⟩

/-- Row-major flat index bound over `ℤ` coordinates. -/
theorem flatIdxInt_lt {w h a b : ℤ} (ha : 0 ≤ a) (haw : a < w) (hb : 0 ≤ b)
    (hbh : b < h) {n : ℕ} (hlen : (n : ℤ) = w * h) : (b * w + a).toNat < n := by
  have h1 : b * w + a < w * h := by nlinarith
  have h2 : 0 ≤ b * w := mul_nonneg hb (by omega)
  omega

/-- The transfer fold of one thermal cell conserves sum and length: every
step subtracts `transfer` at the centre and adds the same `transfer` at an
in-bounds neighbour. -/
theorem thermalTransferFold_sum (snap : List ℚ) (w h x y : ℤ) (cs talus : ℚ)
    (hx : 0 ≤ x) (hxw : x < w) (hy : 0 ≤ y) (hyh : y < h) (n : ℕ)
    (hn : (n : ℤ) = w * h) :
    ∀ (l : List (ℚ × ℤ × ℤ)), (∀ t ∈ l, t ∈ collectDiffs snap w h x y cs talus) →
    ∀ (E T : ℚ) (dd : List ℚ), dd.length = n →
    (thermalTransferFold E T w x y l dd).sum = dd.sum ∧
    (thermalTransferFold E T w x y l dd).length = dd.length := by
  intro l
  induction l with
  | nil => exact fun _ E T dd _ => ⟨rfl, rfl⟩
  | cons q tl ih =>
    intro hsub E T dd hddlen
    have hidx : (y * w + x).toNat < dd.length := by
      rw [hddlen]
      exact flatIdxInt_lt hx hxw hy hyh hn
    obtain ⟨hb1, hb2, hb3, hb4⟩ := collectDiffs_mem (hsub q (List.mem_cons_self _ _))
    have hnidx : ((y + q.2.2) * w + (x + q.2.1)).toNat < dd.length := by
      rw [hddlen]
      exact flatIdxInt_lt hb1 hb2 hb3 hb4 hn
    unfold thermalTransferFold
    simp only [List.foldl_cons]
    set tr := E * (q.1 / T) with htr
    set d1 := dd.set ((y * w + x).toNat) (dd.getD ((y * w + x).toNat) 0 - tr) with hd1
    have hd1len : d1.length = dd.length := by rw [hd1]; simp
    have hd1sum : d1.sum = dd.sum - tr := by
      rw [hd1, qsum_set dd _ hidx]
      ring
    set d2 := d1.set (((y + q.2.2) * w + (x + q.2.1)).toNat)
      (d1.getD (((y + q.2.2) * w + (x + q.2.1)).toNat) 0 + tr) with hd2
    have hd2len : d2.length = dd.length := by rw [hd2]; simp [hd1len]
    have hd2sum : d2.sum = dd.sum := by
      rw [hd2, qsum_set d1 _ (by rw [hd1len]; exact hnidx)]
      rw [hd1sum]
      ring
    obtain ⟨ihs, ihl⟩ := ih (fun t ht => hsub t (List.mem_cons_of_mem _ ht)) E T d2
      (by rw [hd2len, hddlen])
    unfold thermalTransferFold at ihs ihl
    exact ⟨by rw [ihs, hd2sum], by rw [ihl, hd2len]⟩

/-- Conservation for one thermal cell. -/
theorem thermalProcessCell_sum (snap : List ℚ) (w h x y : ℤ)
    (talus rate cs : ℚ) (data : List ℚ)
    (hx : 0 ≤ x) (hxw : x < w) (hy : 0 ≤ y) (hyh : y < h)
    (hlen : ((data.length : ℤ)) = w * h) :
    (thermalProcessCell snap w h x y talus rate cs data).sum = data.sum ∧
    (thermalProcessCell snap w h x y talus rate cs data).length = data.length := by
  unfold thermalProcessCell
  dsimp only
  split_ifs with hempty
  · exact ⟨rfl, rfl⟩
  · exact thermalTransferFold_sum snap w h x y cs talus hx hxw hy hyh data.length hlen
      (collectDiffs snap w h x y cs talus) (fun t ht => ht) _ _ data rfl

/-- Conservation for one thermal sweep. -/
theorem thermalSweep_sum (talus rate cs : ℚ) (w h : ℕ) (data : List ℚ)
    (hlen : data.length = w * h) :
    (thermalSweep talus rate cs w h data).sum = data.sum ∧
    (thermalSweep talus rate cs w h data).length = data.length := by
  unfold thermalSweep
  have hcol : ∀ (y0 : ℕ), y0 < h → ∀ (xs : List ℕ), (∀ x ∈ xs, x < w) →
      ∀ (d : List ℚ), d.sum = data.sum → d.length = data.length →
      ((xs.foldl (fun d (x : ℕ) =>
        thermalProcessCell data (w : ℤ) (h : ℤ) (x : ℤ) (y0 : ℤ)
          talus rate cs d) d).sum = data.sum ∧
       (xs.foldl (fun d (x : ℕ) =>
        thermalProcessCell data (w : ℤ) (h : ℤ) (x : ℤ) (y0 : ℤ)
          talus rate cs d) d).length = data.length) := by
    intro y0 hy0 xs
    induction xs with
    | nil => exact fun _ d hs hl => ⟨hs, hl⟩
    | cons x0 xt ihx =>
      intro hxs d hs hl
      simp only [List.foldl_cons]
      have hcell := thermalProcessCell_sum data (w : ℤ) (h : ℤ) (x0 : ℤ) (y0 : ℤ)
        talus rate cs d (by positivity) (by exact_mod_cast hxs x0 (List.mem_cons_self _ _))
        (by positivity) (by exact_mod_cast hy0)
        (by rw [hl, hlen]; push_cast; ring)
      exact ihx (fun x hx => hxs x (List.mem_cons_of_mem _ hx)) _
        (by rw [hcell.1, hs]) (by rw [hcell.2, hl])
  have hrow : ∀ (ys : List ℕ), (∀ y ∈ ys, y < h) →
      ∀ (d : List ℚ), d.sum = data.sum → d.length = data.length →
      ((ys.foldl (fun d (y : ℕ) =>
        (List.range w).foldl (fun d (x : ℕ) =>
          thermalProcessCell data (w : ℤ) (h : ℤ) (x : ℤ) (y : ℤ)
            talus rate cs d) d) d).sum = data.sum ∧
       (ys.foldl (fun d (y : ℕ) =>
        (List.range w).foldl (fun d (x : ℕ) =>
          thermalProcessCell data (w : ℤ) (h : ℤ) (x : ℤ) (y : ℤ)
            talus rate cs d) d) d).length = data.length) := by
    intro ys
    induction ys with
    | nil => exact fun _ d hs hl => ⟨hs, hl⟩
    | cons y0 yt ihy =>
      intro hys d hs hl
      simp only [List.foldl_cons]
      have hrow0 := hcol y0 (hys y0 (List.mem_cons_self _ _)) (List.range w)
        (fun x hx => List.mem_range.mp hx) d hs hl
      exact ihy (fun y hy => hys y (List.mem_cons_of_mem _ hy)) _ hrow0.1 hrow0.2
  exact hrow (List.range h) (fun y hy => List.mem_range.mp hy) data rfl rfl

/-- Conservation for the full thermal erosion. -/
theorem thermal_erode_sum (hm : Heightmap) (p : ThermalParams)
    (hlen : hm.data.length = hm.width * hm.height) :
    (Thermal.erode hm p).data.sum = hm.data.sum ∧
    (Thermal.erode hm p).data.length = hm.data.length := by
  unfold Thermal.erode
  dsimp only
  have aux : ∀ (l : List ℕ) (d : List ℚ), d.sum = hm.data.sum → d.length = hm.data.length →
      ((l.foldl (fun d _ =>
        thermalSweep p.talus p.transfer_rate (1 / (hm.width : ℚ)) hm.width hm.height d) d).sum
          = hm.data.sum ∧
       (l.foldl (fun d _ =>
        thermalSweep p.talus p.transfer_rate (1 / (hm.width : ℚ)) hm.width hm.height d) d).length
          = hm.data.length) := by
    intro l
    induction l with
    | nil => exact fun d hs hl => ⟨hs, hl⟩
    | cons a t ih =>
      intro d hs hl
      simp only [List.foldl_cons]
      have hsw := thermalSweep_sum p.talus p.transfer_rate (1 / (hm.width : ℚ))
        hm.width hm.height d (by rw [hl, hlen])
      exact ih _ (by rw [hsw.1, hs]) (by rw [hsw.2, hl])
  exact aux (List.range p.iterations) hm.data rfl rfl

set_option maxHeartbeats 12000000 in
/-- **C4.** Thermal erosion conserves material exactly (in exact rational
arithmetic): every transfer subtracts from the centre exactly the amount it
adds to an in-bounds neighbour, so processing any cell preserves the grid
sum, and so does the whole erosion; and on the 3×3 grid with centre 1,
others 0, `talus = 0`, `transferRate = 1`, one iteration drops the centre to
0 and raises its four 4-neighbours by equal shares `1/4` summing to the
centre's drop. -/
theorem C4_thermal_conservation :
    (∀ (snap : List ℚ) (w h x y : ℤ) (talus rate cs : ℚ) (data : List ℚ),
      0 ≤ x → x < w → 0 ≤ y → y < h → ((data.length : ℤ)) = w * h →
      (thermalProcessCell snap w h x y talus rate cs data).sum = data.sum) ∧
    (∀ (hm : Heightmap) (p : ThermalParams),
      hm.data.length = hm.width * hm.height →
      (Thermal.erode hm p).data.sum = hm.data.sum) ∧
    (Thermal.erode ⟨[0, 0, 0, 0, 1, 0, 0, 0, 0], 3, 3⟩ ⟨1, 0, 1⟩).data =
      [0, 1/4, 0, 1/4, 0, 1/4, 0, 1/4, 0] := by
  refine ⟨?_, ?_, ?_⟩
  · intro snap w h x y talus rate cs data hx hxw hy hyh hlen
    exact (thermalProcessCell_sum snap w h x y talus rate cs data hx hxw hy hyh hlen).1
  · intro hm p hlen
    exact (thermal_erode_sum hm p hlen).1
  · norm_num +decide [Thermal.erode, thermalSweep, thermalProcessCell, thermalTransferFold,
      collectDiffs, thermalNeighbors, List.filterMap_cons, List.range_succ,
      show (Int.toNat 0) = 0 from rfl, show (Int.toNat 1) = 1 from rfl,
      show (Int.toNat 2) = 2 from rfl, show (Int.toNat 3) = 3 from rfl,
      show (Int.toNat 4) = 4 from rfl, show (Int.toNat 5) = 5 from rfl,
      show (Int.toNat 6) = 6 from rfl, show (Int.toNat 7) = 7 from rfl,
      show (Int.toNat 8) = 8 from rfl]

/-- Witness for C4: the 3×3 scenario grid satisfies the hypotheses and the
full erosion preserves its sum. -/
theorem C4_thermal_conservation_witness :
    (Heightmap.mk [0, 0, 0, 0, 1, 0, 0, 0, 0] 3 3).data.length = 3 * 3 ∧
    (Thermal.erode ⟨[0, 0, 0, 0, 1, 0, 0, 0, 0], 3, 3⟩ ⟨1, 0, 1⟩).data.sum =
      (Heightmap.mk [0, 0, 0, 0, 1, 0, 0, 0, 0] 3 3).data.sum :=
  ⟨by simp, C4_thermal_conservation.2.1 ⟨[0, 0, 0, 0, 1, 0, 0, 0, 0], 3, 3⟩ ⟨1, 0, 1⟩ (by simp)⟩

/-! ### `erosion/hydraulic.rs` -/

/-- `hydraulic.rs` `HydraulicParams`. -/
structure HydraulicParams where
  num_droplets : ℕ
  max_lifetime : ℕ
  erosion_rate : ℚ
  deposition_rate : ℚ
  evaporation_rate : ℚ
  inertia : ℚ
  min_slope : ℚ
  capacity_factor : ℚ
  erosion_radius : ℕ
  gravity : ℚ

/-- Abstracted transcendental `f32` operations and the random stream.
`rng k` stands for the `k`-th value drawn from `rand::thread_rng`'s
`gen::<f32>()` (values in `[0,1)`). -/
structure HydroEnv where
  fsqrt : ℚ → ℚ
  fcos : ℚ → ℚ
  fsin : ℚ → ℚ
  rng : ℕ → ℚ

/-- The exact value of `std::f32::consts::TAU`. -/
def tauF32 : ℚ := 13176795 / 2097152

/-- Checked heightmap read `hm.get(x, y) = hm.data[(y*w + x) as usize]`: the
`Vec` indexing panic is the `none` branch. -/
def hmGet? (data : List ℚ) (w : ℕ) (x y : ℕ) : Option ℚ :=
  data.get? (y * w + x)

/-- Checked in-place add `hm.data[idx] += v`. -/
def addAt? (data : List ℚ) (idx : ℕ) (v : ℚ) : Option (List ℚ) :=
  if idx < data.length then some (data.set idx (data.getD idx 0 + v)) else none

/-- `hydraulic.rs` `interpolate_height`: bilinear sample at `(x, y)` with the
four cell indices clamped to the grid. -/
def interpolate_height (data : List ℚ) (w h : ℕ) (x y : ℚ) : Option ℚ :=
  let ix := f32AsU32 x
  let iy := f32AsU32 y
  let fx := x - (ix : ℚ)
  let fy := y - (iy : ℚ)
  match hmGet? data w ix iy, hmGet? data w (min (ix + 1) (w - 1)) iy,
      hmGet? data w ix (min (iy + 1) (h - 1)),
      hmGet? data w (min (ix + 1) (w - 1)) (min (iy + 1) (h - 1)) with
  | some tl, some tr, some bl, some br =>
      let top := tl + (tr - tl) * fx
      let bot := bl + (br - bl) * fx
      some (top + (bot - top) * fy)
  | _, _, _, _ => none

/-- `hydraulic.rs` `gradient_at`: bilinear gradient and height at `(x, y)`. -/
def gradient_at (data : List ℚ) (w h : ℕ) (x y : ℚ) : Option (ℚ × ℚ × ℚ) :=
  let ix := f32AsU32 x
  let iy := f32AsU32 y
  let fx := x - (ix : ℚ)
  let fy := y - (iy : ℚ)
  match hmGet? data w ix iy, hmGet? data w (min (ix + 1) (w - 1)) iy,
      hmGet? data w ix (min (iy + 1) (h - 1)),
      hmGet? data w (min (ix + 1) (w - 1)) (min (iy + 1) (h - 1)) with
  | some tl, some tr, some bl, some br =>
      some ((tr - tl) * (1 - fy) + (br - bl) * fy,
        (bl - tl) * (1 - fx) + (br - tr) * fx,
        tl + (tr - tl) * fx + (bl - tl) * fy + (tl - tr - bl + br) * fx * fy)
  | _, _, _, _ => none

/-- `hydraulic.rs` `deposit_at`: bilinear distribution of `amount` over the
four surrounding cells (indices clamped), each write checked. -/
def deposit_at (data : List ℚ) (w h : ℕ) (x y : ℚ) (amount : ℚ) : Option (List ℚ) :=
  let ix := f32AsU32 x
  let iy := f32AsU32 y
  let fx := x - (ix : ℚ)
  let fy := y - (iy : ℚ)
  let ws : List (ℚ × ℕ × ℕ) :=
    [((1 - fx) * (1 - fy), ix, iy),
     (fx * (1 - fy), min (ix + 1) (w - 1), iy),
     ((1 - fx) * fy, ix, min (iy + 1) (h - 1)),
     (fx * fy, min (ix + 1) (w - 1), min (iy + 1) (h - 1))]
  ws.foldlM (fun dd t => addAt? dd (t.2.2 * w + t.2.1) (amount * t.1)) data

/-- `hydraulic.rs` `erode_at`: subtract `amount * weight` at each brush
offset around the rounded position, skipping out-of-bounds offsets. -/
def erode_at (data : List ℚ) (w h : ℕ) (x y : ℚ) (amount : ℚ)
    (brush : List (ℤ × ℤ × ℚ)) : List ℚ :=
  let ix := rustRound x
  let iy := rustRound y
  brush.foldl (fun dd t =>
    let cx := ix + t.1
    let cy := iy + t.2.1
    if 0 ≤ cx ∧ cx < (w : ℤ) ∧ 0 ≤ cy ∧ cy < (h : ℤ) then
      dd.set ((cy * (w : ℤ) + cx)).toNat
        (dd.getD ((cy * (w : ℤ) + cx)).toNat 0 - amount * t.2.2)
    else dd) data

/-- Integer range `lo..=hi` as a list. -/
def intRange (lo hi : ℤ) : List ℤ :=
  (List.range (hi + 1 - lo).toNat).map fun k => lo + (k : ℤ)

/-- `hydraulic.rs` `compute_erosion_brush`: offsets within `radius` with
weight `1 - dist/(radius+1)` (`dist` through the abstracted `f32::sqrt`),
normalised so the weights sum to 1 when the total is positive. -/
def compute_erosion_brush (fsqrt : ℚ → ℚ) (radius : ℤ) : List (ℤ × ℤ × ℚ) :=
  let offsets := (intRange (-radius) radius).flatMap fun dy =>
    (intRange (-radius) radius).filterMap fun dx =>
      let dist := fsqrt (((dx * dx + dy * dy : ℤ) : ℚ))
      if dist ≤ (radius : ℚ) then some (dx, dy, 1 - dist / ((radius : ℚ) + 1))
      else none
  let total := (offsets.map fun t => t.2.2).sum
  if 0 < total then offsets.map (fun t => (t.1, t.2.1, t.2.2 / total)) else offsets

/-- One droplet's mutable state. -/
structure Droplet where
  px : ℚ
  py : ℚ
  dx : ℚ
  dy : ℚ
  speed : ℚ
  water : ℚ
  sediment : ℚ

/-- The per-droplet lifetime loop of `hydraulic.rs` `erode` (`for _ in
0..max_lifetime`), threading the grid and the rng counter; `none` is an
out-of-bounds `Vec` access. -/
def dropletLife (env : HydroEnv) (p : HydraulicParams) (w h : ℕ)
    (brush : List (ℤ × ℤ × ℚ)) :
    ℕ → List ℚ → ℕ → Droplet → Option (List ℚ × ℕ)
  | 0, data, rix, _ => some (data, rix)
  | fuel + 1, data, rix, d =>
    match gradient_at data w h d.px d.py with
    | none => none
    | some g =>
      let dx1 := d.dx * p.inertia - g.1 * (1 - p.inertia)
      let dy1 := d.dy * p.inertia - g.2.1 * (1 - p.inertia)
      let len := env.fsqrt (dx1 * dx1 + dy1 * dy1)
      let dxr := if len < 1 / 1000000 then env.fcos (env.rng rix * tauF32) else dx1 / len
      let dyr := if len < 1 / 1000000 then env.fsin (env.rng rix * tauF32) else dy1 / len
      let rix1 := if len < 1 / 1000000 then rix + 1 else rix
      let newPx := d.px + dxr
      let newPy := d.py + dyr
      if newPx < 1 / 2 ∨ (w : ℚ) - 3 / 2 ≤ newPx ∨
          newPy < 1 / 2 ∨ (h : ℚ) - 3 / 2 ≤ newPy then
        some (data, rix1)
      else
        match interpolate_height data w h newPx newPy with
        | none => none
        | some hNew =>
          let hDiff := hNew - g.2.2
          let capacity := max (-hDiff) p.min_slope * d.speed * d.water * p.capacity_factor
          let next : Option (List ℚ × ℚ) :=
            if capacity < d.sediment ∨ 0 < hDiff then
              let dep := if 0 < hDiff then min d.sediment hDiff
                else (d.sediment - capacity) * p.deposition_rate
              (deposit_at data w h d.px d.py dep).map (fun dd => (dd, d.sediment - dep))
            else
              let ero := min ((capacity - d.sediment) * p.erosion_rate) (-hDiff)
              some (erode_at data w h d.px d.py ero brush, d.sediment + ero)
          match next with
          | none => none
          | some r =>
            dropletLife env p w h brush fuel r.1 rix1
              ⟨newPx, newPy, dxr, dyr,
                env.fsqrt (max (d.speed * d.speed + hDiff * p.gravity) 0),
                d.water * (1 - p.evaporation_rate), r.2⟩

/-- One droplet: spawn at
`(rng·(w-2) + 0.5, rng·(h-2) + 0.5)` with direction `(0,0)`, speed 1,
water 1, sediment 0, then run the lifetime loop. -/
def runDroplet (env : HydroEnv) (p : HydraulicParams) (w h : ℕ)
    (brush : List (ℤ × ℤ × ℚ)) (data : List ℚ) (rix : ℕ) : Option (List ℚ × ℕ) :=
  let px := env.rng rix * ((w : ℚ) - 2) + 1 / 2
  let py := env.rng (rix + 1) * ((h : ℚ) - 2) + 1 / 2
  dropletLife env p w h brush p.max_lifetime data (rix + 2) ⟨px, py, 0, 0, 1, 1, 0⟩

/-- The observable outcome of a hydraulic run: final grid, emitted progress
values in order, number of droplets fully processed, and whether the loop
completed normally. -/
structure HydroResult where
  data : List ℚ
  events : List ℚ
  processed : ℕ
  completed : Bool

/-- The droplet loop of `hydraulic.rs` `erode`: at every index divisible by
1000 it first reads the abort flag (returning at once when set) and then
emits `i / numDroplets`; on normal completion it emits `1.0`.  `abortF i` is
the value of the atomic abort flag when polled at droplet `i`. -/
def erodeLoop (env : HydroEnv) (p : HydraulicParams) (w h : ℕ)
    (brush : List (ℤ × ℤ × ℚ)) (abortF : ℕ → Bool) :
    ℕ → ℕ → List ℚ → ℕ → List ℚ → Option HydroResult
  | i, 0, data, _, evs => some ⟨data, evs ++ [1], i, true⟩
  | i, rem + 1, data, rix, evs =>
    if i % 1000 = 0 then
      if abortF i then some ⟨data, evs, i, false⟩
      else
        match runDroplet env p w h brush data rix with
        | none => none
        | some r =>
          erodeLoop env p w h brush abortF (i + 1) rem r.1 r.2
            (evs ++ [(i : ℚ) / (p.num_droplets : ℚ)])
    else
      match runDroplet env p w h brush data rix with
      | none => none
      | some r => erodeLoop env p w h brush abortF (i + 1) rem r.1 r.2 evs

/-- `hydraulic.rs` `erode`: precompute the brush once, then run
`num_droplets` droplets with abort polling and progress reporting. -/
def Hydraulic.erode (env : HydroEnv) (hm : Heightmap) (p : HydraulicParams)
    (abortF : ℕ → Bool) : Option HydroResult :=
  let brush := compute_erosion_brush env.fsqrt (p.erosion_radius : ℤ)
  erodeLoop env p hm.width hm.height brush abortF 0 p.num_droplets hm.data 0 []

/-- The droplet position invariant: inside `[0.5, w-1.5] × [0.5, h-1.5]`. -/
def posInBox (w h : ℕ) (px py : ℚ) : Prop :=
  1 / 2 ≤ px ∧ px ≤ (w : ℚ) - 3 / 2 ∧ 1 / 2 ≤ py ∧ py ≤ (h : ℚ) - 3 / 2

/-- A coordinate in the box truncates to a cell index at most `w - 2`. -/
theorem f32AsU32_le_of_box {w : ℕ} {px : ℚ} (hw : 2 ≤ w)
    (h1 : 1 / 2 ≤ px) (h2 : px ≤ (w : ℚ) - 3 / 2) : f32AsU32 px ≤ w - 2 := by
  have h3 : ⌊px⌋ ≤ ⌊(w : ℚ) - 3 / 2⌋ := Int.floor_le_floor h2
  have h4 : ⌊(w : ℚ) - 3 / 2⌋ = (w : ℤ) - 2 := by
    rw [Int.floor_eq_iff]
    constructor
    · push_cast
      linarith
    · push_cast
      linarith
  rw [h4] at h3
  have h5 : (f32AsU32 px) ≤ (⌊px⌋).toNat := min_le_left _ _
  omega

/-- In-bounds checked reads succeed. -/
theorem hmGet?_some {data : List ℚ} {w h x y : ℕ} (hw : 1 ≤ w) (hh : 1 ≤ h)
    (hx : x ≤ w - 1) (hy : y ≤ h - 1) (hlen : data.length = w * h) :
    ∃ v, hmGet? data w x y = some v := by
  have hlt : y * w + x < data.length := by
    rw [hlen]
    exact flatIdx_lt hw hh hx hy
  exact ⟨data[y * w + x], by
    simp [hmGet?, List.get?_eq_getElem?, List.getElem?_eq_getElem hlt]⟩

/-- `gradient_at` succeeds inside the box. -/
theorem gradient_at_some {data : List ℚ} {w h : ℕ} {px py : ℚ}
    (hw : 2 ≤ w) (hh : 2 ≤ h) (hlen : data.length = w * h)
    (hp : posInBox w h px py) :
    ∃ g, gradient_at data w h px py = some g := by
  obtain ⟨h1, h2, h3, h4⟩ := hp
  have hix : f32AsU32 px ≤ w - 1 := le_trans (f32AsU32_le_of_box hw h1 h2) (by omega)
  have hiy : f32AsU32 py ≤ h - 1 := le_trans (f32AsU32_le_of_box hh h3 h4) (by omega)
  have hix1 : min (f32AsU32 px + 1) (w - 1) ≤ w - 1 := min_le_right _ _
  have hiy1 : min (f32AsU32 py + 1) (h - 1) ≤ h - 1 := min_le_right _ _
  obtain ⟨tl, htl⟩ := hmGet?_some (by omega) (by omega) hix hiy hlen
  obtain ⟨tr, htr⟩ := hmGet?_some (by omega) (by omega) hix1 hiy hlen
  obtain ⟨bl, hbl⟩ := hmGet?_some (by omega) (by omega) hix hiy1 hlen
  obtain ⟨br, hbr⟩ := hmGet?_some (by omega) (by omega) hix1 hiy1 hlen
  simp only [gradient_at, htl, htr, hbl, hbr]
  exact ⟨_, rfl⟩

/-- `interpolate_height` succeeds inside the box. -/
theorem interpolate_height_some {data : List ℚ} {w h : ℕ} {px py : ℚ}
    (hw : 2 ≤ w) (hh : 2 ≤ h) (hlen : data.length = w * h)
    (hp : posInBox w h px py) :
    ∃ v, interpolate_height data w h px py = some v := by
  obtain ⟨h1, h2, h3, h4⟩ := hp
  have hix : f32AsU32 px ≤ w - 1 := le_trans (f32AsU32_le_of_box hw h1 h2) (by omega)
  have hiy : f32AsU32 py ≤ h - 1 := le_trans (f32AsU32_le_of_box hh h3 h4) (by omega)
  have hix1 : min (f32AsU32 px + 1) (w - 1) ≤ w - 1 := min_le_right _ _
  have hiy1 : min (f32AsU32 py + 1) (h - 1) ≤ h - 1 := min_le_right _ _
  obtain ⟨tl, htl⟩ := hmGet?_some (by omega) (by omega) hix hiy hlen
  obtain ⟨tr, htr⟩ := hmGet?_some (by omega) (by omega) hix1 hiy hlen
  obtain ⟨bl, hbl⟩ := hmGet?_some (by omega) (by omega) hix hiy1 hlen
  obtain ⟨br, hbr⟩ := hmGet?_some (by omega) (by omega) hix1 hiy1 hlen
  simp only [interpolate_height, htl, htr, hbl, hbr]
  exact ⟨_, rfl⟩

/-- An in-bounds checked add succeeds and is a `set`. -/
theorem addAt?_of_lt {data : List ℚ} {idx : ℕ} {v : ℚ} (h : idx < data.length) :
    addAt? data idx v = some (data.set idx (data.getD idx 0 + v)) := by
  simp [addAt?, h]

/-- A checked-add fold succeeds and preserves length when every index is in
bounds. -/
theorem foldlM_addAt?_some {w : ℕ} (amount : ℚ) :
    ∀ (ws : List (ℚ × ℕ × ℕ)) (data : List ℚ),
      (∀ t ∈ ws, t.2.2 * w + t.2.1 < data.length) →
      ∃ dd, ws.foldlM (fun dd t => addAt? dd (t.2.2 * w + t.2.1) (amount * t.1))
          data = some dd ∧ dd.length = data.length
  | [], data, _ => ⟨data, rfl, rfl⟩
  | t :: ws, data, hb => by
    have h1 : t.2.2 * w + t.2.1 < data.length := hb t (List.mem_cons_self _ _)
    obtain ⟨dd, hdd, hl⟩ := foldlM_addAt?_some amount ws
      (data.set (t.2.2 * w + t.2.1) (data.getD (t.2.2 * w + t.2.1) 0 + amount * t.1))
      (by
        intro u hu
        rw [List.length_set]
        exact hb u (List.mem_cons_of_mem _ hu))
    refine ⟨dd, ?_, by rw [hl, List.length_set]⟩
    rw [List.foldlM_cons, addAt?_of_lt h1]
    exact hdd

/-- `deposit_at` succeeds inside the box and preserves the grid length. -/
theorem deposit_at_some {data : List ℚ} {w h : ℕ} {px py : ℚ} (amount : ℚ)
    (hw : 2 ≤ w) (hh : 2 ≤ h) (hlen : data.length = w * h)
    (hp : posInBox w h px py) :
    ∃ dd, deposit_at data w h px py amount = some dd ∧
      dd.length = data.length := by
  obtain ⟨h1, h2, h3, h4⟩ := hp
  have hix : f32AsU32 px ≤ w - 1 := le_trans (f32AsU32_le_of_box hw h1 h2) (by omega)
  have hiy : f32AsU32 py ≤ h - 1 := le_trans (f32AsU32_le_of_box hh h3 h4) (by omega)
  have hix1 : min (f32AsU32 px + 1) (w - 1) ≤ w - 1 := min_le_right _ _
  have hiy1 : min (f32AsU32 py + 1) (h - 1) ≤ h - 1 := min_le_right _ _
  simp only [deposit_at]
  refine foldlM_addAt?_some _ _ data ?_
  intro t ht
  rw [hlen]
  simp only [List.mem_cons, List.not_mem_nil, or_false] at ht
  rcases ht with ht | ht | ht | ht <;> subst ht <;>
    exact flatIdx_lt (by omega) (by omega) (by assumption) (by assumption)

/-- `erode_at` preserves the grid length. -/
theorem erode_at_length (data : List ℚ) (w h : ℕ) (x y : ℚ) (amount : ℚ)
    (brush : List (ℤ × ℤ × ℚ)) :
    (erode_at data w h x y amount brush).length = data.length := by
  unfold erode_at
  refine foldl_invariant (fun d => d.length = data.length) _ brush ?_ data rfl
  intro a b _ ha
  dsimp only
  split
  · rw [List.length_set, ha]
  · exact ha

/-- A successful checked-add fold preserves the length. -/
theorem foldlM_addAt?_length {w : ℕ} (amount : ℚ) :
    ∀ (ws : List (ℚ × ℕ × ℕ)) (data dd : List ℚ),
      ws.foldlM (fun dd t => addAt? dd (t.2.2 * w + t.2.1) (amount * t.1))
          data = some dd → dd.length = data.length
  | [], data, dd, h => by
    cases h
    rfl
  | t :: ws, data, dd, h => by
    rw [List.foldlM_cons] at h
    unfold addAt? at h
    split at h
    · simp only [Option.bind_eq_bind, Option.some_bind] at h
      rw [foldlM_addAt?_length amount ws _ dd h, List.length_set]
    · cases h

/-- `deposit_at` never fails inside the box. -/
theorem deposit_at_ne_none {data : List ℚ} {w h : ℕ} {px py amount : ℚ}
    (hw : 2 ≤ w) (hh : 2 ≤ h) (hlen : data.length = w * h)
    (hp : posInBox w h px py) :
    deposit_at data w h px py amount ≠ none := by
  obtain ⟨dd, hdd, -⟩ := deposit_at_some amount hw hh hlen hp
  rw [hdd]
  exact Option.some_ne_none _

/-- A successful `deposit_at` preserves the length. -/
theorem deposit_at_length {data dd : List ℚ} {w h : ℕ} {px py amount : ℚ}
    (hdd : deposit_at data w h px py amount = some dd) :
    dd.length = data.length := by
  unfold deposit_at at hdd
  exact foldlM_addAt?_length amount _ data dd hdd

theorem dropletLife_some (env : HydroEnv) (p : HydraulicParams) {w h : ℕ}
    (brush : List (ℤ × ℤ × ℚ)) (hw : 2 ≤ w) (hh : 2 ≤ h) :
    ∀ (fuel : ℕ) (data : List ℚ) (rix : ℕ) (d : Droplet),
      data.length = w * h → posInBox w h d.px d.py →
      ∃ r, dropletLife env p w h brush fuel data rix d = some r ∧
        r.1.length = w * h
  | 0, data, rix, _ => fun hlen _ => ⟨(data, rix), rfl, hlen⟩
  | fuel + 1, data, rix, d => by
    intro hlen hp
    obtain ⟨g, hg⟩ := gradient_at_some hw hh hlen hp
    simp only [dropletLife, hg]
    split
    all_goals
      split
      · exact ⟨_, rfl, hlen⟩
      · next hbreak =>
        push_neg at hbreak
        obtain ⟨hb1, hb2, hb3, hb4⟩ := hbreak
        obtain ⟨hNew, hint⟩ :=
          interpolate_height_some hw hh hlen ⟨hb1, hb2.le, hb3, hb4.le⟩
        simp only [hint]
        split
        · next heq =>
          exfalso
          split at heq
          · exact deposit_at_ne_none hw hh hlen hp (Option.map_eq_none'.mp heq)
          · exact Option.some_ne_none _ heq
        · next r heq =>
          have hr1 : r.1.length = w * h := by
            split at heq
            · obtain ⟨dd, hX, hfr⟩ := Option.map_eq_some'.mp heq
              rw [← hfr]
              exact (deposit_at_length hX).trans hlen
            · cases heq
              exact (erode_at_length _ _ _ _ _ _ _).trans hlen
          exact dropletLife_some env p brush hw hh fuel _ _ _ hr1
            ⟨hb1, hb2.le, hb3, hb4.le⟩

/-- A spawned droplet succeeds: its start position is inside the box. -/
theorem runDroplet_some (env : HydroEnv) (p : HydraulicParams) {w h : ℕ}
    (brush : List (ℤ × ℤ × ℚ)) (hw : 2 ≤ w) (hh : 2 ≤ h)
    (hrng : ∀ k, 0 ≤ env.rng k ∧ env.rng k < 1)
    (data : List ℚ) (rix : ℕ) (hlen : data.length = w * h) :
    ∃ r, runDroplet env p w h brush data rix = some r ∧
      r.1.length = w * h := by
  have hwq : (2 : ℚ) ≤ (w : ℚ) := by exact_mod_cast hw
  have hhq : (2 : ℚ) ≤ (h : ℚ) := by exact_mod_cast hh
  obtain ⟨ha0, ha1⟩ := hrng rix
  obtain ⟨hb0, hb1⟩ := hrng (rix + 1)
  refine dropletLife_some env p brush hw hh p.max_lifetime data (rix + 2) _ hlen ?_
  refine ⟨?_, ?_, ?_, ?_⟩ <;> dsimp only
  · nlinarith
  · nlinarith
  · nlinarith
  · nlinarith

/-- The droplet loop succeeds on an in-bounds grid. -/
theorem erodeLoop_some (env : HydroEnv) (p : HydraulicParams) {w h : ℕ}
    (brush : List (ℤ × ℤ × ℚ)) (abortF : ℕ → Bool) (hw : 2 ≤ w) (hh : 2 ≤ h)
    (hrng : ∀ k, 0 ≤ env.rng k ∧ env.rng k < 1) :
    ∀ (rem i : ℕ) (data : List ℚ) (rix : ℕ) (evs : List ℚ),
      data.length = w * h →
      ∃ r, erodeLoop env p w h brush abortF i rem data rix evs = some r ∧
        r.data.length = w * h
  | 0, i, data, _, evs, hlen => ⟨⟨data, evs ++ [1], i, true⟩, rfl, hlen⟩
  | rem + 1, i, data, rix, evs, hlen => by
    obtain ⟨r, hr, hrl⟩ := runDroplet_some env p brush hw hh hrng data rix hlen
    simp only [erodeLoop, hr]
    split
    · split
      · exact ⟨_, rfl, hlen⟩
      · exact erodeLoop_some env p brush abortF hw hh hrng rem _ _ _ _ hrl
    · exact erodeLoop_some env p brush abortF hw hh hrng rem _ _ _ _ hrl

/-- C10: on any grid with width ≥ 2 and height ≥ 2 (and data of the right
length), hydraulic erosion never performs an out-of-bounds access — every
checked read and write in the embedding succeeds, for every parameter set,
abort schedule and rng stream in `[0,1)` — and the grid length is
preserved. -/
theorem C10_hydraulic_memory_safety (env : HydroEnv) (hm : Heightmap)
    (p : HydraulicParams) (abortF : ℕ → Bool)
    (hw : 2 ≤ hm.width) (hh : 2 ≤ hm.height)
    (hlen : hm.data.length = hm.width * hm.height)
    (hrng : ∀ k, 0 ≤ env.rng k ∧ env.rng k < 1) :
    ∃ r, Hydraulic.erode env hm p abortF = some r ∧
      r.data.length = hm.data.length := by
  obtain ⟨r, hr, hrl⟩ := erodeLoop_some env p
    (compute_erosion_brush env.fsqrt (p.erosion_radius : ℤ)) abortF hw hh hrng
    p.num_droplets 0 hm.data 0 [] hlen
  exact ⟨r, hr, by rw [hrl, hlen]⟩

/-- C10 witness: a concrete 2×2 run succeeds. -/
theorem C10_hydraulic_memory_safety_witness :
    ∃ r, Hydraulic.erode ⟨fun _ => 0, fun _ => 0, fun _ => 0, fun _ => 0⟩
        ⟨[0, 0, 0, 0], 2, 2⟩ ⟨1, 1, 1/2, 1/2, 1/10, 1/20, 1/100, 4, 2, 4⟩
        (fun _ => false) = some r ∧
      r.data.length = ([0, 0, 0, 0] : List ℚ).length :=
  C10_hydraulic_memory_safety ⟨fun _ => 0, fun _ => 0, fun _ => 0, fun _ => 0⟩
    ⟨[0, 0, 0, 0], 2, 2⟩ ⟨1, 1, 1/2, 1/2, 1/10, 1/20, 1/100, 4, 2, 4⟩
    (fun _ => false) (by norm_num) (by norm_num) (by norm_num)
    (fun k => ⟨le_refl 0, by norm_num⟩)

/-- Full characterisation of the droplet loop's observable outcome: on
normal completion every polled multiple of 1000 was un-aborted, all
`num_droplets` droplets ran and the progress events are exactly the polled
multiples followed by `1`; otherwise the loop stopped at the first polled
multiple with the abort flag set, emitted exactly the progress values of
the earlier polls, and never emitted `1`. -/
theorem erodeLoop_char (env : HydroEnv) (p : HydraulicParams) {w h : ℕ}
    (brush : List (ℤ × ℤ × ℚ)) (abortF : ℕ → Bool) :
    ∀ (rem i : ℕ) (data : List ℚ) (rix : ℕ) (evs : List ℚ) (r : HydroResult),
      erodeLoop env p w h brush abortF i rem data rix evs = some r →
      (r.completed = true ∧
        (∀ j, i ≤ j → j < i + rem → j % 1000 = 0 → abortF j = false) ∧
        r.processed = i + rem ∧
        r.events = evs ++ (((List.range' i rem).filter fun j => j % 1000 = 0).map
          fun (j : ℕ) => (j : ℚ) / (p.num_droplets : ℚ)) ++ [1]) ∨
      (r.completed = false ∧
        ∃ k, i ≤ k ∧ k < i + rem ∧ k % 1000 = 0 ∧ abortF k = true ∧
          (∀ j, i ≤ j → j < k → j % 1000 = 0 → abortF j = false) ∧
          r.processed = k ∧
          r.events = evs ++ (((List.range' i (k - i)).filter
            fun j => j % 1000 = 0).map fun (j : ℕ) => (j : ℚ) / (p.num_droplets : ℚ)))
  | 0, i, data, rix, evs, r, hr => by
    cases hr
    left
    refine ⟨rfl, fun j h1 h2 _ => absurd h2 (by omega), rfl, ?_⟩
    simp [List.range']
  | rem + 1, i, data, rix, evs, r, hr => by
    simp only [erodeLoop] at hr
    split at hr
    · next hmod =>
      split at hr
      · next habort =>
        cases hr
        right
        exact ⟨rfl, i, le_refl i, by omega, hmod, habort,
          fun j h1 h2 _ => absurd h2 (by omega), rfl, by simp⟩
      · next habort =>
        rw [Bool.not_eq_true] at habort
        cases hrd : runDroplet env p w h brush data rix with
        | none =>
          rw [hrd] at hr
          simp at hr
        | some r' =>
          rw [hrd] at hr
          have ih := erodeLoop_char env p brush abortF rem (i + 1) r'.1 r'.2
            (evs ++ [(i : ℚ) / (p.num_droplets : ℚ)]) r hr
          rcases ih with ⟨hc, hpolls, hproc, hev⟩ | ⟨hc, k, hik, hkr, hkmod, hkt, hprior, hproc, hev⟩
          · left
            refine ⟨hc, ?_, by omega, ?_⟩
            · intro j h1 h2 h3
              rcases Nat.eq_or_lt_of_le h1 with h1 | h1
              · rw [← h1]
                exact habort
              · exact hpolls j h1 (by omega) h3
            · rw [hev, List.range'_succ, List.filter_cons_of_pos (by simpa using hmod),
                List.map_cons]
              simp [List.append_assoc]
          · right
            refine ⟨hc, k, by omega, by omega, hkmod, hkt, ?_, hproc, ?_⟩
            · intro j h1 h2 h3
              rcases Nat.eq_or_lt_of_le h1 with h1 | h1
              · rw [← h1]
                exact habort
              · exact hprior j h1 h2 h3
            · rw [hev]
              have hsplit : k - i = (k - (i + 1)) + 1 := by omega
              rw [hsplit, List.range'_succ,
                List.filter_cons_of_pos (by simpa using hmod), List.map_cons]
              simp [List.append_assoc]
    · next hmod =>
      cases hrd : runDroplet env p w h brush data rix with
      | none =>
        rw [hrd] at hr
        simp at hr
      | some r' =>
        rw [hrd] at hr
        have ih := erodeLoop_char env p brush abortF rem (i + 1) r'.1 r'.2 evs r hr
        rcases ih with ⟨hc, hpolls, hproc, hev⟩ | ⟨hc, k, hik, hkr, hkmod, hkt, hprior, hproc, hev⟩
        · left
          refine ⟨hc, ?_, by omega, ?_⟩
          · intro j h1 h2 h3
            rcases Nat.eq_or_lt_of_le h1 with h1 | h1
            · exact absurd (h1 ▸ h3) hmod
            · exact hpolls j h1 (by omega) h3
          · rw [hev, List.range'_succ, List.filter_cons_of_neg (by simpa using hmod)]
        · right
          refine ⟨hc, k, by omega, by omega, hkmod, hkt, ?_, hproc, ?_⟩
          · intro j h1 h2 h3
            rcases Nat.eq_or_lt_of_le h1 with h1 | h1
            · exact absurd (h1 ▸ h3) hmod
            · exact hprior j h1 h2 h3
          · rw [hev]
            have hsplit : k - i = (k - (i + 1)) + 1 := by omega
            rw [hsplit, List.range'_succ, List.filter_cons_of_neg (by simpa using hmod)]

/-- No polled progress value `j / num_droplets` with `j < num_droplets` can
equal `1`. -/
theorem polled_count_one_eq_zero (p : HydraulicParams) {m : ℕ}
    (hm : m ≤ p.num_droplets) :
    (((List.range' 0 m).filter fun j => j % 1000 = 0).map
      fun (j : ℕ) => (j : ℚ) / (p.num_droplets : ℚ)).count 1 = 0 := by
  rw [List.count_eq_zero]
  intro hmem
  rw [List.mem_map] at hmem
  obtain ⟨j, hj, hj3⟩ := hmem
  rw [List.mem_filter] at hj
  have hjr : j < m := by
    have h1 := hj.1
    rw [List.mem_range'_1] at h1
    omega
  have hN : 0 < p.num_droplets := by omega
  have hN0 : ((p.num_droplets : ℚ)) ≠ 0 := Nat.cast_ne_zero.mpr (by omega)
  field_simp at hj3
  omega

/-- C5: the hydraulic loop polls the abort flag and emits progress only at
droplet indices that are multiples of 1000 — on normal completion all polls
were clear, all droplets ran, the events are exactly the polled multiples'
`i / num_droplets` followed by a single `1.0`; on abort the loop stops at
the first polled multiple with the flag set, processing exactly that many
droplets, never emits `1.0`, and a sticky abort set at index `a` (with at
least one later poll) forces termination within one 1000-droplet window. -/
theorem C5_hydraulic_progress_abort (env : HydroEnv) (hm : Heightmap)
    (p : HydraulicParams) (abortF : ℕ → Bool) (r : HydroResult)
    (hr : Hydraulic.erode env hm p abortF = some r) :
    (r.completed = true →
      (∀ j, j < p.num_droplets → j % 1000 = 0 → abortF j = false) ∧
      r.processed = p.num_droplets ∧
      r.events = (((List.range p.num_droplets).filter fun j => j % 1000 = 0).map
        fun (j : ℕ) => (j : ℚ) / (p.num_droplets : ℚ)) ++ [1] ∧
      r.events.count 1 = 1) ∧
    (r.completed = false →
      ∃ k, k < p.num_droplets ∧ k % 1000 = 0 ∧ abortF k = true ∧
        (∀ j, j < k → j % 1000 = 0 → abortF j = false) ∧
        r.processed = k ∧
        r.events = ((List.range k).filter fun j => j % 1000 = 0).map
          (fun (j : ℕ) => (j : ℚ) / (p.num_droplets : ℚ)) ∧
        r.events.count 1 = 0) ∧
    (∀ a, (∀ j j', j ≤ j' → abortF j = true → abortF j' = true) →
      abortF a = true → a + 1000 ≤ p.num_droplets →
      r.completed = false ∧ r.processed < a + 1000) := by
  have hchar := erodeLoop_char env p
    (compute_erosion_brush env.fsqrt (p.erosion_radius : ℤ)) abortF
    p.num_droplets 0 hm.data 0 [] r hr
  refine ⟨?_, ?_, ?_⟩
  · intro hc
    rcases hchar with ⟨-, hpolls, hproc, hev⟩ | ⟨hc', -⟩
    · have hev' : r.events = (((List.range p.num_droplets).filter
          fun j => j % 1000 = 0).map
          fun (j : ℕ) => (j : ℚ) / (p.num_droplets : ℚ)) ++ [1] := by
        rw [List.range_eq_range']
        simpa using hev
      refine ⟨fun j h1 h2 => hpolls j (Nat.zero_le j) (by omega) h2,
        by omega, hev', ?_⟩
      rw [hev', List.count_append, List.range_eq_range',
        polled_count_one_eq_zero p (le_refl _)]
      simp
    · rw [hc] at hc'
      cases hc'
  · intro hc
    rcases hchar with ⟨hc', -⟩ | ⟨-, k, -, hkN, hkmod, hkt, hprior, hproc, hev⟩
    · rw [hc] at hc'
      cases hc'
    · have hkN' : k < p.num_droplets := by omega
      have hev' : r.events = ((List.range k).filter fun j => j % 1000 = 0).map
          (fun (j : ℕ) => (j : ℚ) / (p.num_droplets : ℚ)) := by
        rw [List.range_eq_range']
        simpa using hev
      refine ⟨k, hkN', hkmod, hkt,
        fun j h1 h2 => hprior j (Nat.zero_le j) h1 h2, hproc, hev', ?_⟩
      rw [hev', List.range_eq_range', polled_count_one_eq_zero p (by omega)]
  · intro a hmono ha haN
    have hmfacts : a ≤ (a + 999) / 1000 * 1000 ∧
        (a + 999) / 1000 * 1000 < a + 1000 ∧
        (a + 999) / 1000 * 1000 % 1000 = 0 := by omega
    obtain ⟨hm1, hm2, hm3⟩ := hmfacts
    have habm : abortF ((a + 999) / 1000 * 1000) = true :=
      hmono a _ hm1 ha
    rcases hchar with ⟨hc, hpolls, -, -⟩ | ⟨hc, k, -, hkN, hkmod, hkt, hprior, hproc, -⟩
    · exact absurd habm (by
        rw [hpolls _ (Nat.zero_le _) (by omega) hm3]
        exact Bool.false_ne_true)
    · refine ⟨hc, ?_⟩
      rw [hproc]
      by_contra hk
      push_neg at hk
      exact absurd habm (by
        rw [hprior _ (Nat.zero_le _) (by omega) hm3]
        exact Bool.false_ne_true)

/-- C5 witness: a one-droplet run with abort never set completes with
events `[0/1, 1]`, a single `1.0`, and all droplets processed. -/
theorem C5_hydraulic_progress_abort_witness :
    ∃ r, Hydraulic.erode ⟨fun _ => 0, fun _ => 0, fun _ => 0, fun _ => 0⟩
        ⟨[0, 0, 0, 0], 2, 2⟩ ⟨1, 0, 1/2, 1/2, 1/10, 1/20, 1/100, 4, 2, 4⟩
        (fun _ => false) = some r ∧ r.events.count 1 = 1 ∧
      r.processed = 1 ∧ r.completed = true := by
  have hr : Hydraulic.erode ⟨fun _ => 0, fun _ => 0, fun _ => 0, fun _ => 0⟩
      ⟨[0, 0, 0, 0], 2, 2⟩ ⟨1, 0, 1/2, 1/2, 1/10, 1/20, 1/100, 4, 2, 4⟩
      (fun _ => false) =
      some ⟨[0, 0, 0, 0], [((0 : ℕ) : ℚ) / ((1 : ℕ) : ℚ), 1], 1, true⟩ := rfl
  obtain ⟨hA, -, -⟩ := C5_hydraulic_progress_abort _ _ _ _ _ hr
  exact ⟨_, hr, (hA rfl).2.2.2, (hA rfl).2.1, rfl⟩

/-- The shared state of `state.rs` `AppState` visible to the erosion
commands: the grid behind the mutex and the two atomic flags. -/
structure SysState where
  grid : List ℚ
  running : Bool
  abort : Bool

/-- `commands.rs` `run_hydraulic_erosion` up to the spawn: the
`swap(true, SeqCst)` on `erosion_running` returns the old value; when it was
already set the command fails with the "already running" error touching
nothing, otherwise it clears `erosion_abort` and spawns the worker. -/
def runHydraulicStart (s : SysState) : Except String Unit × SysState :=
  if s.running then (Except.error "Erosion already running", s)
  else (Except.ok (), { s with running := true, abort := false })

/-- The spawned worker's effect on the shared state as written in
`commands.rs`: the thread body runs `hydraulic::erode` under the lock and
only afterwards executes `running.store(false, SeqCst)`.  `outcome = some g`
is a worker that returns normally (completion or early abort) with final
grid `g`; `outcome = none` is a worker that panics inside the block (there
is no drop guard in the source, so the store is skipped during unwinding). -/
def workerExit (s : SysState) (outcome : Option (List ℚ)) : SysState :=
  match outcome with
  | some g => { s with grid := g, running := false }
  | none => s

/-- C6: the start is an atomic test-and-set — a second call while a job is
in flight fails with "Erosion already running" leaving the whole state
untouched — and a normally returning worker clears the running flag; but a
worker that panics leaves `running` set forever, so every subsequent start
fails: the spec's guarantee that the flag is cleared on the panic exit path
does not hold in the code. -/
theorem C6_running_flag_lifecycle (s : SysState) :
    (s.running = true →
      runHydraulicStart s = (Except.error "Erosion already running", s)) ∧
    (s.running = false →
      ∃ s', runHydraulicStart s = (Except.ok (), s') ∧
        s'.grid = s.grid ∧ s'.running = true ∧ s'.abort = false ∧
        (∀ g, (workerExit s' (some g)).running = false) ∧
        (workerExit s' none).running = true ∧
        runHydraulicStart (workerExit s' none) =
          (Except.error "Erosion already running", workerExit s' none)) := by
  constructor
  · intro h
    simp [runHydraulicStart, h]
  · intro h
    refine ⟨{ s with running := true, abort := false },
      by simp [runHydraulicStart, h], rfl, rfl, rfl, fun g => rfl, rfl, ?_⟩
    simp [runHydraulicStart, workerExit]

/-- `project.rs` `export_heightmap_png16` pixel data:
`(v.clamp(0.0, 1.0) * 65535.0) as u16` over the grid (the `as u16` cast
truncates toward zero, saturating). -/
def export_heightmap_png16_pixels (hm : Heightmap) : List ℕ :=
  hm.data.map fun v => f32AsU16 (qclamp v 0 1 * 65535)

/-- The spec's wording for the png16 pixel: `round(clamp(h,0,1)·65535)`,
with `f32::round` rounding half away from zero. -/
def specPng16Pixel (v : ℚ) : ℕ := (rustRound (qclamp v 0 1 * 65535)).toNat

/-- C8 (amended): each png16 pixel is the clamped height scaled by 65535 and
truncated (floor), not rounded; the value always lies in `[0, 65535]`, so
the cast's saturation never fires. -/
theorem C8_png16_truncates (hm : Heightmap) :
    export_heightmap_png16_pixels hm =
      hm.data.map (fun v => (Int.floor (qclamp v 0 1 * 65535)).toNat) ∧
    ∀ v ∈ hm.data, (Int.floor (qclamp v 0 1 * 65535)).toNat ≤ 65535 := by
  have key : ∀ v : ℚ, (Int.floor (qclamp v 0 1 * 65535)).toNat ≤ 65535 := by
    intro v
    have h1 : qclamp v 0 1 ≤ 1 := qclamp_le_one v
    have h2 : qclamp v 0 1 * 65535 ≤ 65535 := by linarith
    have h3 : Int.floor (qclamp v 0 1 * 65535) ≤ 65535 := by
      calc Int.floor (qclamp v 0 1 * 65535) ≤ Int.floor (65535 : ℚ) :=
            Int.floor_le_floor h2
        _ = 65535 := by norm_num
    omega
  refine ⟨List.map_congr_left fun v _ => ?_, fun v _ => key v⟩
  unfold f32AsU16
  exact min_eq_left (key v)

/-- C8 counterexample: at height `1/2` the code writes pixel
`⌊32767.5⌋ = 32767`, while the spec's `round(clamp(h,0,1)·65535)` gives
`32768`. -/
theorem C8_png16_counterexample :
    export_heightmap_png16_pixels ⟨[1/2], 1, 1⟩ = [32767] ∧
    specPng16Pixel (1/2) = 32768 := by
  constructor
  · show [f32AsU16 (qclamp (1/2) 0 1 * 65535)] = [32767]
    norm_num [f32AsU16, qclamp, show Int.toNat 32767 = 32767 from rfl]
  · norm_num [specPng16Pixel, rustRound, qclamp, show Int.toNat 32768 = 32768 from rfl]

/-- `project.rs` `ProjectManifest` (the serde-decoded `manifest.json`). -/
structure ProjectManifest where
  format_version : ℕ
  app_version : String
  width : ℕ
  height : ℕ
  created_at : ℕ
  has_texture : Bool

/-- `project.rs` `FORMAT_VERSION`. -/
def FORMAT_VERSION : ℕ := 1

/-- A zip archive as its entries in order; `by_name` takes the first entry
with the given name. -/
def zipByName (ar : List (String × List ℕ)) (name : String) : Option (List ℕ) :=
  (ar.find? fun e => e.1 == name).map Prod.snd

/-- `project.rs` `load_project` after the file is opened, over an abstract
archive. `parseManifest` stands for `serde_json::from_str::<ProjectManifest>`,
`decodeUtf8` for `read_to_string`'s UTF-8 decoding (`none` = invalid UTF-8),
and `fromLe` for `f32::from_le_bytes` on a 4-byte chunk. -/
def load_project (parseManifest : String → Option ProjectManifest)
    (decodeUtf8 : List ℕ → Option String) (fromLe : List ℕ → ℚ)
    (ar : List (String × List ℕ)) :
    Except String (Heightmap × Option (List ℕ) × String) :=
  match zipByName ar "manifest.json" with
  | none => Except.error "Missing manifest.json in .topo file"
  | some mbytes =>
    match decodeUtf8 mbytes with
    | none => Except.error "Read error"
    | some mstr =>
      match parseManifest mstr with
      | none => Except.error "Invalid manifest"
      | some manifest =>
        if FORMAT_VERSION < manifest.format_version then
          Except.error ("Project version " ++ toString manifest.format_version
            ++ " is newer than supported version " ++ toString FORMAT_VERSION)
        else
          match zipByName ar "heightmap.bin" with
          | none => Except.error "Missing heightmap.bin in .topo file"
          | some bytes =>
            if bytes.length ≠ manifest.width * manifest.height * 4 then
              Except.error "Heightmap size mismatch"
            else
              let data := (List.range (bytes.length / 4)).map fun i =>
                fromLe ((bytes.drop (4 * i)).take 4)
              let texture := if manifest.has_texture then
                zipByName ar "texture.png" else none
              match zipByName ar "settings.json" with
              | some sbytes =>
                match decodeUtf8 sbytes with
                | none => Except.error "Read error"
                | some sstr =>
                  Except.ok (⟨data, manifest.width, manifest.height⟩,
                    texture, sstr)
              | none =>
                Except.ok (⟨data, manifest.width, manifest.height⟩,
                  texture, "\x7b\x7d")

/-- `commands.rs` `load_project`: on success the in-memory grid is replaced
by the loaded one; on any error the grid is left untouched. -/
def loadProjectCommand (parseManifest : String → Option ProjectManifest)
    (decodeUtf8 : List ℕ → Option String) (fromLe : List ℕ → ℚ)
    (ar : List (String × List ℕ)) (hm : Heightmap) :
    Except String (Option (List ℕ) × String) × Heightmap :=
  match load_project parseManifest decodeUtf8 fromLe ar with
  | Except.error e => (Except.error e, hm)
  | Except.ok r => (Except.ok (r.2.1, r.2.2), r.1)

/-- C9: an archive whose manifest's `formatVersion` exceeds the supported
version 1 makes `load_project` fail with the version error and the
`load_project` command leave the in-memory grid untouched; and any archive
that loads successfully without a `settings.json` entry yields the default
settings string `"\x7b\x7d"`. -/
theorem C9_load_version_reject_and_default_settings
    (parseManifest : String → Option ProjectManifest)
    (decodeUtf8 : List ℕ → Option String) (fromLe : List ℕ → ℚ)
    (ar : List (String × List ℕ)) (hm : Heightmap) :
    (∀ mbytes mstr manifest,
      zipByName ar "manifest.json" = some mbytes →
      decodeUtf8 mbytes = some mstr →
      parseManifest mstr = some manifest →
      FORMAT_VERSION < manifest.format_version →
      load_project parseManifest decodeUtf8 fromLe ar =
        Except.error ("Project version " ++ toString manifest.format_version
          ++ " is newer than supported version " ++ toString FORMAT_VERSION) ∧
      loadProjectCommand parseManifest decodeUtf8 fromLe ar hm =
        (Except.error ("Project version " ++ toString manifest.format_version
          ++ " is newer than supported version " ++ toString FORMAT_VERSION),
          hm)) ∧
    (∀ r, load_project parseManifest decodeUtf8 fromLe ar = Except.ok r →
      zipByName ar "settings.json" = none → r.2.2 = "\x7b\x7d") := by
  constructor
  · intro mbytes mstr manifest h1 h2 h3 h4
    have herr : load_project parseManifest decodeUtf8 fromLe ar =
        Except.error ("Project version " ++ toString manifest.format_version
          ++ " is newer than supported version " ++ toString FORMAT_VERSION) := by
      simp only [load_project, h1, h2, h3, if_pos h4]
    exact ⟨herr, by simp only [loadProjectCommand, herr]⟩
  · intro r hr hs
    simp only [load_project] at hr
    split at hr
    · cases hr
    · split at hr
      · cases hr
      · split at hr
        · cases hr
        · split at hr
          · cases hr
          · split at hr
            · cases hr
            · split at hr
              · cases hr
              · rw [hs] at hr
                cases hr
                rfl

/-- `ai.rs` `feather_mask`: two-pass separable box blur of the mask with the
given radius; each pass averages the in-bounds neighbours within `radius`. -/
def feather_mask (mask : List ℚ) (w h : ℕ) (radius : ℕ) : List ℚ :=
  let r : ℤ := (radius : ℤ)
  let temp := (List.range h).flatMap fun y => (List.range w).map fun x =>
    let contrib := (intRange (-r) r).filterMap fun dx =>
      let nx := (x : ℤ) + dx
      if 0 ≤ nx ∧ nx < (w : ℤ) then some (mask.getD (y * w + nx.toNat) 0)
      else none
    contrib.sum / (contrib.length : ℚ)
  (List.range h).flatMap fun y => (List.range w).map fun x =>
    let contrib := (intRange (-r) r).filterMap fun dy =>
      let ny := (y : ℤ) + dy
      if 0 ≤ ny ∧ ny < (h : ℤ) then some (temp.getD (ny.toNat * w + x) 0)
      else none
    contrib.sum / (contrib.length : ℚ)

/-- The sentinel-initialised masked min/max loop of
`commands.rs` `run_depth_estimation`: starting from
`(f32::MAX, f32::MIN)`, fold over all indices of `vals`, taking `min`/`max`
at indices whose raw mask value exceeds `0.1`. -/
def maskedRange (vals mask : List ℚ) : ℚ × ℚ :=
  (List.range vals.length).foldl (fun acc i =>
    if 1 / 10 < mask.getD i 0 then
      (min acc.1 (vals.getD i 0), max acc.2 (vals.getD i 0))
    else acc) (f32MAX, f32MIN)

/-- The target-range computation of `run_depth_estimation`: default the
masked height range to `[0, 1]` when empty (`masked_min > masked_max`),
widen it to at least `0.05`, expand by `0.3·range` on both sides and clamp
to `[0, 1]`. -/
def depthTargets (grid mask : List ℚ) : ℚ × ℚ :=
  let mr := maskedRange grid mask
  let mmin := if mr.2 < mr.1 then 0 else mr.1
  let mmax := if mr.2 < mr.1 then 1 else mr.2
  let range := max (mmax - mmin) (1 / 20)
  (max (mmin - range * (3 / 10)) 0, min (mmax + range * (3 / 10)) 1)

/-- The per-pixel blend loop of `run_depth_estimation` with a mask: remap
the pixel's depth from the masked depth range (widened to at least `1e-6`)
into the target range and mix it with the grid value by the feathered mask
weight, skipping pixels with weight `≤ 0.001`. -/
def applyDepthBlend (grid depth mask : List ℚ) (w h : ℕ) : List ℚ :=
  let t := depthTargets grid mask
  let dr := maskedRange depth mask
  let drange := max (dr.2 - dr.1) (1 / 1000000)
  let fm := feather_mask mask w h 8
  (List.range grid.length).foldl (fun d i =>
    if 1 / 1000 < fm.getD i 0 then
      d.set i (d.getD i 0 * (1 - fm.getD i 0) +
        (t.1 + (depth.getD i 0 - dr.1) / drange * (t.2 - t.1)) * fm.getD i 0)
    else d) grid

/-- The mask dispatch of `run_depth_estimation` after the depth-length
check: with a mask the blend loop runs, without one the grid is replaced by
the depth field (`copy_from_slice`). -/
def run_depth_estimation_update (grid depth : List ℚ)
    (maskOpt : Option (List ℚ)) (w h : ℕ) : Except String (List ℚ) :=
  if depth.length ≠ grid.length then
    Except.error "Depth data length mismatch"
  else
    match maskOpt with
    | some mask => Except.ok (applyDepthBlend grid depth mask w h)
    | none => Except.ok depth

/-- A fold that conditionally overwrites index `j` with a function of the
current entry preserves the length. -/
theorem range_setFold_length (P : ℕ → Prop) [DecidablePred P]
    (f : ℕ → ℚ → ℚ) (n : ℕ) (grid : List ℚ) :
    ((List.range n).foldl (fun d j =>
      if P j then d.set j (f j (d.getD j 0)) else d) grid).length =
      grid.length := by
  refine foldl_invariant (fun d => d.length = grid.length) _ _ ?_ grid rfl
  intro a b _ ha
  dsimp only
  split
  · rw [List.length_set, ha]
  · exact ha

/-- Each index is written at most once by the conditional overwrite fold, so
the final entry at `i` is `f i` of the original entry when `i` was visited
and selected, and the original entry otherwise. -/
theorem range_setFold_getD (P : ℕ → Prop) [DecidablePred P]
    (f : ℕ → ℚ → ℚ) :
    ∀ (n : ℕ) (grid : List ℚ) (i : ℕ), i < grid.length →
      ((List.range n).foldl (fun d j =>
        if P j then d.set j (f j (d.getD j 0)) else d) grid).getD i 0 =
        if i < n ∧ P i then f i (grid.getD i 0) else grid.getD i 0
  | 0, grid, i, hi => by simp
  | n + 1, grid, i, hi => by
    rw [List.range_succ, List.foldl_append, List.foldl_cons, List.foldl_nil]
    have hlen : ((List.range n).foldl (fun d j =>
        if P j then d.set j (f j (d.getD j 0)) else d) grid).length =
        grid.length := range_setFold_length P f n grid
    by_cases hPn : P n
    · rw [if_pos hPn]
      by_cases hin : i = n
      · rw [hin] at hi ⊢
        rw [getD_set_self _ _ _ (by rw [hlen]; exact hi),
          range_setFold_getD P f n grid n hi]
        simp [hPn]
      · rw [getD_set_ne _ _ _ _ (fun hy => hin hy.symm),
          range_setFold_getD P f n grid i hi]
        by_cases hP : P i
        · by_cases hlt : i < n
          · simp [hlt, hP, Nat.lt_succ_of_lt hlt]
          · have h2 : ¬ i < n + 1 := by omega
            simp [hlt, hP, h2]
        · simp [hP]
    · rw [if_neg hPn, range_setFold_getD P f n grid i hi]
      by_cases hP : P i
      · have hin : i ≠ n := fun hy => hPn (hy ▸ hP)
        by_cases hlt : i < n
        · simp [hlt, hP, Nat.lt_succ_of_lt hlt]
        · have h2 : ¬ i < n + 1 := by omega
          simp [hlt, hP, h2]
      · simp [hP]

/-- The sentinel min/max fold over the first `n` indices: if no index is
masked it stays at the sentinels `(f32::MAX, f32::MIN)`; otherwise it
bounds every masked entry and both components are attained at masked
entries (the entries being genuine `f32` values in `[f32::MIN, f32::MAX]`). -/
theorem maskedRange_fold_spec (vals mask : List ℚ)
    (hb : ∀ i, i < vals.length → f32MIN ≤ vals.getD i 0 ∧ vals.getD i 0 ≤ f32MAX) :
    ∀ n, n ≤ vals.length →
      ((∀ i, i < n → ¬ (1 / 10 < mask.getD i 0)) →
        (List.range n).foldl (fun acc i =>
          if 1 / 10 < mask.getD i 0 then
            (min acc.1 (vals.getD i 0), max acc.2 (vals.getD i 0))
          else acc) (f32MAX, f32MIN) = (f32MAX, f32MIN)) ∧
      (∀ i, i < n → 1 / 10 < mask.getD i 0 →
        ((List.range n).foldl (fun acc i =>
          if 1 / 10 < mask.getD i 0 then
            (min acc.1 (vals.getD i 0), max acc.2 (vals.getD i 0))
          else acc) (f32MAX, f32MIN)).1 ≤ vals.getD i 0 ∧
        vals.getD i 0 ≤ ((List.range n).foldl (fun acc i =>
          if 1 / 10 < mask.getD i 0 then
            (min acc.1 (vals.getD i 0), max acc.2 (vals.getD i 0))
          else acc) (f32MAX, f32MIN)).2) ∧
      ((∃ i, i < n ∧ 1 / 10 < mask.getD i 0) →
        (∃ j, j < n ∧ 1 / 10 < mask.getD j 0 ∧
          ((List.range n).foldl (fun acc i =>
            if 1 / 10 < mask.getD i 0 then
              (min acc.1 (vals.getD i 0), max acc.2 (vals.getD i 0))
            else acc) (f32MAX, f32MIN)).1 = vals.getD j 0) ∧
        (∃ j, j < n ∧ 1 / 10 < mask.getD j 0 ∧
          ((List.range n).foldl (fun acc i =>
            if 1 / 10 < mask.getD i 0 then
              (min acc.1 (vals.getD i 0), max acc.2 (vals.getD i 0))
            else acc) (f32MAX, f32MIN)).2 = vals.getD j 0)) := by
  intro n
  induction n with
  | zero =>
    intro _
    refine ⟨fun _ => rfl, fun i hi => absurd hi (by omega), ?_⟩
    rintro ⟨i, hi, -⟩
    exact absurd hi (by omega)
  | succ n ih =>
    intro hn
    have ihs := ih (by omega)
    have hnv : n < vals.length := by omega
    simp only [List.range_succ, List.foldl_append, List.foldl_cons,
      List.foldl_nil] at *
    by_cases hmn : 1 / 10 < mask.getD n 0
    · rw [if_pos hmn]
      refine ⟨fun hnone => absurd hmn (hnone n (by omega)), ?_, ?_⟩
      · intro i hi hmi
        rcases Nat.lt_succ_iff_lt_or_eq.mp hi with hi | hi
        · obtain ⟨h1, h2⟩ := ihs.2.1 i hi hmi
          exact ⟨le_trans (min_le_left _ _) h1, le_trans h2 (le_max_left _ _)⟩
        · rw [hi]
          exact ⟨min_le_right _ _, le_max_right _ _⟩
      · intro _
        by_cases hex : ∃ i, i < n ∧ 1 / 10 < mask.getD i 0
        · obtain ⟨⟨j1, hj1, hm1, he1⟩, ⟨j2, hj2, hm2, he2⟩⟩ := ihs.2.2 hex
          constructor
          · rcases min_choice (((List.range n).foldl (fun acc i =>
                if 1 / 10 < mask.getD i 0 then
                  (min acc.1 (vals.getD i 0), max acc.2 (vals.getD i 0))
                else acc) (f32MAX, f32MIN)).1) (vals.getD n 0) with hmc | hmc
            · exact ⟨j1, by omega, hm1, by rw [hmc, he1]⟩
            · exact ⟨n, by omega, hmn, hmc⟩
          · rcases max_choice (((List.range n).foldl (fun acc i =>
                if 1 / 10 < mask.getD i 0 then
                  (min acc.1 (vals.getD i 0), max acc.2 (vals.getD i 0))
                else acc) (f32MAX, f32MIN)).2) (vals.getD n 0) with hmc | hmc
            · exact ⟨j2, by omega, hm2, by rw [hmc, he2]⟩
            · exact ⟨n, by omega, hmn, hmc⟩
        · push_neg at hex
          have hfold := ihs.1 (fun i hi => not_lt.mpr (hex i hi))
          rw [hfold]
          refine ⟨⟨n, by omega, hmn, ?_⟩, ⟨n, by omega, hmn, ?_⟩⟩
          · exact min_eq_right (hb n hnv).2
          · exact max_eq_right (hb n hnv).1
    · rw [if_neg hmn]
      refine ⟨fun hnone => ihs.1 (fun i hi => hnone i (by omega)), ?_, ?_⟩
      · intro i hi hmi
        have hin : i ≠ n := fun hy => hmn (hy ▸ hmi)
        exact ihs.2.1 i (by omega) hmi
      · rintro ⟨i, hi, hmi⟩
        have hin : i ≠ n := fun hy => hmn (hy ▸ hmi)
        obtain ⟨⟨j1, hj1, hm1, he1⟩, ⟨j2, hj2, hm2, he2⟩⟩ :=
          ihs.2.2 ⟨i, by omega, hmi⟩
        exact ⟨⟨j1, by omega, hm1, he1⟩, ⟨j2, by omega, hm2, he2⟩⟩

/-- Pointwise value of the blend loop: each index is written at most once,
so a blended pixel mixes the original grid value with the remapped depth by
its feathered weight, and a skipped pixel keeps the original value. -/
theorem applyDepthBlend_getD (grid depth mask : List ℚ) (w h : ℕ)
    (i : ℕ) (hi : i < grid.length) :
    (applyDepthBlend grid depth mask w h).getD i 0 =
      if 1 / 1000 < (feather_mask mask w h 8).getD i 0 then
        grid.getD i 0 * (1 - (feather_mask mask w h 8).getD i 0) +
          ((depthTargets grid mask).1 +
            (depth.getD i 0 - (maskedRange depth mask).1) /
              max ((maskedRange depth mask).2 - (maskedRange depth mask).1)
                (1 / 1000000) *
            ((depthTargets grid mask).2 - (depthTargets grid mask).1)) *
          (feather_mask mask w h 8).getD i 0
      else grid.getD i 0 := by
  have hgen := range_setFold_getD
    (fun j => 1 / 1000 < (feather_mask mask w h 8).getD j 0)
    (fun j v => v * (1 - (feather_mask mask w h 8).getD j 0) +
      ((depthTargets grid mask).1 +
        (depth.getD j 0 - (maskedRange depth mask).1) /
          max ((maskedRange depth mask).2 - (maskedRange depth mask).1)
            (1 / 1000000) *
        ((depthTargets grid mask).2 - (depthTargets grid mask).1)) *
      (feather_mask mask w h 8).getD j 0)
    grid.length grid i hi
  simp only [hi, true_and] at hgen
  exact hgen

/-- When no index is masked the sentinel fold keeps its initial pair. -/
theorem maskedRange_empty (vals mask : List ℚ)
    (hnone : ∀ i, i < vals.length → ¬ (1 / 10 < mask.getD i 0)) :
    maskedRange vals mask = (f32MAX, f32MIN) := by
  unfold maskedRange
  refine foldl_invariant (fun acc => acc = (f32MAX, f32MIN)) _ _ ?_ _ rfl
  intro a b hbm ha
  dsimp only
  rw [if_neg (hnone b (List.mem_range.mp hbm))]
  exact ha

/-- C7: with no mask the depth field replaces the whole grid unchanged;
with a mask, pixels whose feathered weight is ≤ 0.001 are untouched and
every other pixel becomes `grid·(1−w) + remapped·w`, where the depth value
is remapped linearly from the masked depth range (widened to at least 1e-6)
into the target range; the targets default to the expansion of `[0,1]` when
no pixel has raw mask > 0.1, stay within `[0,1]`, and the sentinel min/max
folds compute the true extrema over pixels with raw mask > 0.1. -/
theorem C7_depth_blend (grid depth mask : List ℚ) (w h : ℕ)
    (hlen : depth.length = grid.length) :
    run_depth_estimation_update grid depth none w h = Except.ok depth ∧
    run_depth_estimation_update grid depth (some mask) w h =
      Except.ok (applyDepthBlend grid depth mask w h) ∧
    (∀ i, i < grid.length → ¬ (1 / 1000 < (feather_mask mask w h 8).getD i 0) →
      (applyDepthBlend grid depth mask w h).getD i 0 = grid.getD i 0) ∧
    (∀ i, i < grid.length → 1 / 1000 < (feather_mask mask w h 8).getD i 0 →
      (applyDepthBlend grid depth mask w h).getD i 0 =
        grid.getD i 0 * (1 - (feather_mask mask w h 8).getD i 0) +
          ((depthTargets grid mask).1 +
            (depth.getD i 0 - (maskedRange depth mask).1) /
              max ((maskedRange depth mask).2 - (maskedRange depth mask).1)
                (1 / 1000000) *
            ((depthTargets grid mask).2 - (depthTargets grid mask).1)) *
          (feather_mask mask w h 8).getD i 0) ∧
    ((∀ i, i < grid.length → ¬ (1 / 10 < mask.getD i 0)) →
      depthTargets grid mask = (0, 1)) ∧
    (0 ≤ (depthTargets grid mask).1 ∧ (depthTargets grid mask).2 ≤ 1) ∧
    (∀ vals : List ℚ,
      (∀ i, i < vals.length →
        f32MIN ≤ vals.getD i 0 ∧ vals.getD i 0 ≤ f32MAX) →
      (∀ i, i < vals.length → 1 / 10 < mask.getD i 0 →
        (maskedRange vals mask).1 ≤ vals.getD i 0 ∧
        vals.getD i 0 ≤ (maskedRange vals mask).2) ∧
      ((∃ i, i < vals.length ∧ 1 / 10 < mask.getD i 0) →
        (∃ j, j < vals.length ∧ 1 / 10 < mask.getD j 0 ∧
          (maskedRange vals mask).1 = vals.getD j 0) ∧
        (∃ j, j < vals.length ∧ 1 / 10 < mask.getD j 0 ∧
          (maskedRange vals mask).2 = vals.getD j 0))) := by
  refine ⟨?_, ?_, ?_, ?_, ?_, ?_, ?_⟩
  · simp [run_depth_estimation_update, hlen]
  · simp [run_depth_estimation_update, hlen]
  · intro i hi hw
    rw [applyDepthBlend_getD grid depth mask w h i hi, if_neg hw]
  · intro i hi hw
    rw [applyDepthBlend_getD grid depth mask w h i hi, if_pos hw]
  · intro hnone
    unfold depthTargets
    rw [maskedRange_empty grid mask hnone]
    norm_num [f32MAX, f32MIN]
  · unfold depthTargets
    exact ⟨le_max_right _ _, min_le_right _ _⟩
  · intro vals hb
    have hspec := maskedRange_fold_spec vals mask hb vals.length (le_refl _)
    exact ⟨hspec.2.1, hspec.2.2⟩

/-- C7 witness: with no mask a one-pixel grid is replaced by the depth
field unchanged. -/
theorem C7_depth_blend_witness :
    run_depth_estimation_update [(1 : ℚ)/2] [(1 : ℚ)/4] none 1 1 =
      Except.ok [(1 : ℚ)/4] :=
  (C7_depth_blend [(1 : ℚ)/2] [(1 : ℚ)/4] ([1] : List ℚ) 1 1 rfl).1
